import Mathlib

/-!
Verification of the tree-diff / path-mapping / plan-execution core of a
Drive-to-local folder synchronizer.

The Python source keeps file and folder metadata in string-keyed dicts.  The
embedding models those records as Lean structures whose fields mirror the dict
keys used by the core (`id`, `name`, `parent_path`, `full_path`, `mimeType`,
`size`, `modifiedTime`, `md5Checksum`, `md5`, `is_google_doc`, `local_path`),
with `Option` for keys that may be absent (`dict.get` returning `None`).
`modifiedTime` is modelled as an integer timestamp in seconds (the source
stores an ISO-8601 string and parses it with `datetime.fromisoformat` before
every comparison); `size` is modelled as a natural number of bytes on both
sides, as the data model defines it.  Name-indexed dict comprehensions
(`{x['name']: x for x in xs}`, last entry winning on duplicate keys) are
modelled by `file_lookup` / `folder_lookup`, and iteration over a dict's keys
by the deduplicated key list; Python's set-intersection iteration order is
unspecified, and no property proved here depends on iteration order.
-/

/-- Python truthiness of an optional string value (`if s:`): `None` and the
empty string are falsy. -/
def truthyStr : Option String → Bool
  | none => false
  | some s => !s.isEmpty

/-- One file record, as built by the scanners (`sync_engine.py`): the union of
the keys that the drive scanner and the local scanner put into a file dict. -/
structure FileRec where
  id : String := ""
  name : String := ""
  mimeType : String := ""
  parent_path : String := ""
  full_path : String := ""
  size : Option Nat := none
  modifiedTime : Int := 0
  md5Checksum : Option String := none
  md5 : Option String := none
  is_google_doc : Bool := false
  local_path : Option String := none
  deriving Repr, DecidableEq

/-- One folder record (`{'id', 'name', 'path', 'files', 'children'}`). -/
inductive FolderRec where
  | mk (id : String) (name : String) (path : String)
       (files : List FileRec) (children : List FolderRec)
  deriving Repr

/-- Field `id` of a folder record. -/
def FolderRec.id : FolderRec → String
  | .mk i _ _ _ _ => i

/-- Field `name` of a folder record. -/
def FolderRec.name : FolderRec → String
  | .mk _ n _ _ _ => n

/-- Field `path` of a folder record. -/
def FolderRec.path : FolderRec → String
  | .mk _ _ p _ _ => p

/-- Field `files` of a folder record. -/
def FolderRec.files : FolderRec → List FileRec
  | .mk _ _ _ fs _ => fs

/-- Field `children` of a folder record. -/
def FolderRec.children : FolderRec → List FolderRec
  | .mk _ _ _ _ cs => cs

/-- The sync plan dict initialized in `SyncEngine.compare_structures`: the two
`to_delete_*` lists exist in the source but are never appended to. -/
structure SyncPlan where
  to_download : List FileRec := []
  to_upload : List FileRec := []
  to_delete_local : List FileRec := []
  to_delete_remote : List FileRec := []
  conflicts : List (FileRec × FileRec) := []
  drive_only_folders : List FolderRec := []
  local_only_folders : List FolderRec := []
  deriving Repr

/-- The empty sync plan (`compare_structures`'s initializer). -/
def emptyPlan : SyncPlan := {}

/-- `sync_plan['to_download'].append(file)`. -/
def append_download (p : SyncPlan) (f : FileRec) : SyncPlan :=
  { p with to_download := p.to_download ++ [f] }

/-- `sync_plan['to_upload'].append(file)`. -/
def append_upload (p : SyncPlan) (f : FileRec) : SyncPlan :=
  { p with to_upload := p.to_upload ++ [f] }

/-- `sync_plan['conflicts'].append((drive_file, local_file))`. -/
def append_conflict (p : SyncPlan) (df lf : FileRec) : SyncPlan :=
  { p with conflicts := p.conflicts ++ [(df, lf)] }

/-- `sync_plan['drive_only_folders'].append(folder)`. -/
def append_drive_only (p : SyncPlan) (g : FolderRec) : SyncPlan :=
  { p with drive_only_folders := p.drive_only_folders ++ [g] }

/-- `sync_plan['local_only_folders'].append(folder)`. -/
def append_local_only (p : SyncPlan) (g : FolderRec) : SyncPlan :=
  { p with local_only_folders := p.local_only_folders ++ [g] }

/-- A name-indexed dict `{key(x): x for x in xs}` looked up at `n`: the last
list entry with that key wins, `none` when the key is absent. -/
def dict_lookup {α : Type} (key : α → String) (xs : List α) (n : String) : Option α :=
  xs.foldl (fun acc x => if key x = n then some x else acc) none

/-- The name-indexed dict `{f['name']: f for f in files}` looked up at key
`n`. -/
def file_lookup (files : List FileRec) (n : String) : Option FileRec :=
  dict_lookup FileRec.name files n

/-- The name-indexed dict of folder children looked up at key `n`. -/
def folder_lookup (folders : List FolderRec) (n : String) : Option FolderRec :=
  dict_lookup FolderRec.name folders n

/-- `SyncEngine._are_files_different` (sync_engine.py lines 373-402): prefer
MD5 when both sides carry a truthy hash, then size inequality, then a
modification-time difference beyond 60 seconds.  The timestamp-parse
`except` branch of the source (malformed ISO strings) is unreachable here
because timestamps are already integers. -/
def are_files_different (drive_file local_file : FileRec) : Bool :=
  if truthyStr drive_file.md5 && truthyStr local_file.md5 then
    drive_file.md5 != local_file.md5
  else if drive_file.size != local_file.size then
    true
  else
    (drive_file.modifiedTime - local_file.modifiedTime).natAbs > 60

/-- The body of the common-name loop of `SyncEngine._compare_files`
(sync_engine.py lines 344-371), for one pair of same-named files:
skip Google-native documents; otherwise, when the files differ, auto-resolve
toward the configured side when that side is the one the code computes as
newer (`drive_time > local_time` decides, so a tie counts as local being
newer), and record a conflict pair otherwise. -/
def common_file_step (conflict_resolution : String) (drive_file local_file : FileRec)
    (p : SyncPlan) : SyncPlan :=
  if drive_file.is_google_doc then p
  else if are_files_different drive_file local_file then
    if drive_file.modifiedTime > local_file.modifiedTime then
      if conflict_resolution = "drive" then append_download p drive_file
      else append_conflict p drive_file local_file
    else
      if conflict_resolution = "local" then append_upload p local_file
      else append_conflict p drive_file local_file
  else p

/-- First loop of `_compare_files`: files present only on Drive are queued
for download unless they are Google-native documents. -/
def drive_only_file_loop (drive_files local_files : List FileRec) :
    List String → SyncPlan → SyncPlan
  | [], p => p
  | n :: ns, p =>
    let p :=
      match file_lookup drive_files n, file_lookup local_files n with
      | some f, none => if f.is_google_doc then p else append_download p f
      | _, _ => p
    drive_only_file_loop drive_files local_files ns p

/-- Second loop of `_compare_files`: files present only locally are queued
for upload. -/
def local_only_file_loop (drive_files local_files : List FileRec) :
    List String → SyncPlan → SyncPlan
  | [], p => p
  | n :: ns, p =>
    let p :=
      match file_lookup local_files n, file_lookup drive_files n with
      | some f, none => append_upload p f
      | _, _ => p
    local_only_file_loop drive_files local_files ns p

/-- Third loop of `_compare_files`: each name present on both sides goes
through `common_file_step`. -/
def common_file_loop (conflict_resolution : String) (drive_files local_files : List FileRec) :
    List String → SyncPlan → SyncPlan
  | [], p => p
  | n :: ns, p =>
    let p :=
      match file_lookup drive_files n, file_lookup local_files n with
      | some df, some lf => common_file_step conflict_resolution df lf p
      | _, _ => p
    common_file_loop conflict_resolution drive_files local_files ns p

/-- `SyncEngine._compare_files` (sync_engine.py lines 314-371). -/
def compare_files (conflict_resolution : String) (drive_folder local_folder : FolderRec)
    (plan : SyncPlan) : SyncPlan :=
  let drive_files := drive_folder.files
  let local_files := local_folder.files
  let plan := drive_only_file_loop drive_files local_files
      ((drive_files.map FileRec.name).dedup) plan
  let plan := local_only_file_loop drive_files local_files
      ((local_files.map FileRec.name).dedup) plan
  common_file_loop conflict_resolution drive_files local_files
      ((drive_files.map FileRec.name).dedup) plan

/-- `_compare_folders` loop over Drive child names absent locally. -/
def drive_only_folder_loop (drive_children local_children : List FolderRec) :
    List String → SyncPlan → SyncPlan
  | [], p => p
  | n :: ns, p =>
    let p :=
      match folder_lookup drive_children n, folder_lookup local_children n with
      | some g, none => append_drive_only p g
      | _, _ => p
    drive_only_folder_loop drive_children local_children ns p

/-- `_compare_folders` loop over local child names absent on Drive. -/
def local_only_folder_loop (drive_children local_children : List FolderRec) :
    List String → SyncPlan → SyncPlan
  | [], p => p
  | n :: ns, p =>
    let p :=
      match folder_lookup local_children n, folder_lookup drive_children n with
      | some g, none => append_local_only p g
      | _, _ => p
    local_only_folder_loop drive_children local_children ns p

mutual

/-- `SyncEngine._compare_folders` (sync_engine.py lines 283-312): compare the
files of the two folders, record one-sided child folders, and recurse into
the child names common to both sides. -/
def compare_folders (conflict_resolution : String) :
    FolderRec → FolderRec → SyncPlan → SyncPlan
  | .mk di dn dp dfs dcs, lf, plan =>
    let df : FolderRec := .mk di dn dp dfs dcs
    let plan := compare_files conflict_resolution df lf plan
    let plan := drive_only_folder_loop dcs lf.children
        ((dcs.map FolderRec.name).dedup) plan
    let plan := local_only_folder_loop dcs lf.children
        ((lf.children.map FolderRec.name).dedup) plan
    compare_children conflict_resolution lf.children dcs plan
  termination_by df _ _ => sizeOf df
  decreasing_by all_goals simp_wf

/-- The recursion of `_compare_folders` over the common child names
(`for name in set(drive_children) & set(local_children)`): walking the Drive
child list, a child shadowed by a later same-named sibling is skipped (the
dict comprehension keeps the last entry per name), and each surviving child
is paired with the same-named local child, when one exists. -/
def compare_children (conflict_resolution : String) :
    List FolderRec → List FolderRec → SyncPlan → SyncPlan
  | _, [], plan => plan
  | local_children, c :: rest, plan =>
    let plan :=
      if (rest.map FolderRec.name).contains c.name then plan
      else
        match folder_lookup local_children c.name with
        | some lc => compare_folders conflict_resolution c lc plan
        | none => plan
    compare_children conflict_resolution local_children rest plan
  termination_by _ l _ => sizeOf l
  decreasing_by all_goals simp_wf <;> omega

end

/-- `SyncEngine.compare_structures` (sync_engine.py lines 252-281) on two
present structures (the source returns `None` when either side is missing;
that guard is outside the tree comparison itself). -/
def compare_structures (conflict_resolution : String)
    (drive_structure local_structure : FolderRec) : SyncPlan :=
  compare_folders conflict_resolution drive_structure local_structure emptyPlan

/-- `preferences.get('conflict_resolution', 'drive')`, the policy default used
by the diff engine. -/
def engine_conflict_resolution (pref : Option String) : String :=
  pref.getD "drive"

/-! ### Dict-lookup toolkit -/


theorem dict_lookup_foldl_acc {α : Type} (key : α → String) (n : String) :
    ∀ (xs : List α) (acc : Option α),
      xs.foldl (fun a x => if key x = n then some x else a) acc =
        match dict_lookup key xs n with
        | some y => some y
        | none => acc := by
  intro xs
  induction xs with
  | nil => intro acc; simp [dict_lookup]
  | cons x xs ih =>
    intro acc
    have hdef : dict_lookup key (x :: xs) n =
        xs.foldl (fun a x => if key x = n then some x else a)
          (if key x = n then some x else none) := rfl
    rw [List.foldl_cons, ih, hdef, ih (if key x = n then some x else none)]
    cases h : dict_lookup key xs n with
    | some y => simp
    | none => by_cases hx : key x = n <;> simp [hx]

theorem dict_lookup_cons {α : Type} (key : α → String) (n : String) (x : α) (xs : List α) :
    dict_lookup key (x :: xs) n =
      match dict_lookup key xs n with
      | some y => some y
      | none => if key x = n then some x else none := by
  have hdef : dict_lookup key (x :: xs) n =
      xs.foldl (fun a x => if key x = n then some x else a)
        (if key x = n then some x else none) := rfl
  rw [hdef, dict_lookup_foldl_acc]

theorem dict_lookup_isSome {α : Type} (key : α → String) (n : String) :
    ∀ xs : List α, (dict_lookup key xs n).isSome = true ↔ n ∈ xs.map key := by
  intro xs
  induction xs with
  | nil => simp [dict_lookup]
  | cons x xs ih =>
    rw [dict_lookup_cons, List.map_cons, List.mem_cons]
    cases h : dict_lookup key xs n with
    | some y =>
      rw [h] at ih
      simp only [Option.isSome_some, true_iff] at ih
      simp [ih]
    | none =>
      rw [h] at ih
      simp only [Option.isSome_none, Bool.false_eq_true, false_iff] at ih
      by_cases hx : key x = n
      · simp [hx]
      · simp only [hx, if_false, Option.isSome_none, Bool.false_eq_true, false_iff]
        rintro (h1 | h2)
        · exact hx h1.symm
        · exact ih h2

theorem dict_lookup_some {α : Type} (key : α → String) (n : String) :
    ∀ (xs : List α) (x : α), dict_lookup key xs n = some x → x ∈ xs ∧ key x = n := by
  intro xs
  induction xs with
  | nil => intro x h; simp [dict_lookup] at h
  | cons y xs ih =>
    intro x h
    rw [dict_lookup_cons] at h
    cases hl : dict_lookup key xs n with
    | some z =>
      rw [hl] at h
      simp only [Option.some.injEq] at h
      rcases ih z hl with ⟨hm, hk⟩
      subst h
      exact ⟨List.mem_cons_of_mem y hm, hk⟩
    | none =>
      rw [hl] at h
      by_cases hy : key y = n
      · simp only [hy, if_true, Option.some.injEq] at h
        subst h
        exact ⟨List.mem_cons_self y xs, hy⟩
      · simp [hy] at h

theorem dict_lookup_eq_none {α : Type} (key : α → String) (n : String) (xs : List α) :
    dict_lookup key xs n = none ↔ n ∉ xs.map key := by
  rw [← dict_lookup_isSome key n xs]
  cases h : dict_lookup key xs n <;> simp

theorem dict_lookup_no_match {α : Type} (key : α → String) (n : String)
    (xs : List α) (h : ∀ y ∈ xs, key y ≠ n) : dict_lookup key xs n = none := by
  rw [dict_lookup_eq_none]
  intro hmem
  rcases List.mem_map.mp hmem with ⟨y, hy, hk⟩
  exact h y hy hk

theorem dict_lookup_last {α : Type} (key : α → String) (n : String) (x : α) :
    ∀ (pre rest : List α), key x = n → (∀ y ∈ rest, key y ≠ n) →
      dict_lookup key (pre ++ x :: rest) n = some x := by
  intro pre
  induction pre with
  | nil =>
    intro rest hx hrest
    rw [List.nil_append, dict_lookup_cons, dict_lookup_no_match key n rest hrest]
    simp [hx]
  | cons p pre ih =>
    intro rest hx hrest
    rw [List.cons_append, dict_lookup_cons, ih rest hx hrest]

/-! ### The per-pair comparison decision (claims about `_compare_files`) -/

/-- C2: two same-named files that both carry a (truthy) content hash and whose
hashes are equal are judged not different, and the common-name step of the
diff engine takes no action on the pair, whatever their `modifiedTime` and
recorded `size` say. -/
theorem hash_equal_files_no_action (conflict_resolution : String) (df lf : FileRec)
    (p : SyncPlan) (h1 : truthyStr df.md5 = true) (h2 : truthyStr lf.md5 = true)
    (h3 : df.md5 = lf.md5) :
    are_files_different df lf = false ∧
      common_file_step conflict_resolution df lf p = p := by
  have hdiff : are_files_different df lf = false := by
    simp [are_files_different, h1, h2, h3]
  exact ⟨hdiff, by simp [common_file_step, hdiff]⟩

/-- Sample pair for the C2 witness: equal hashes, very different size and
modification time. -/
def wDrive2 : FileRec := { name := "a.txt", md5 := some "h1", size := some 5, modifiedTime := 0 }

/-- Local half of the C2 witness pair. -/
def wLocal2 : FileRec :=
  { name := "a.txt", md5 := some "h1", size := some 999, modifiedTime := 100000 }

theorem hash_equal_files_no_action_witness :
    truthyStr wDrive2.md5 = true ∧ truthyStr wLocal2.md5 = true ∧
      wDrive2.md5 = wLocal2.md5 ∧
      (are_files_different wDrive2 wLocal2 = false ∧
        common_file_step "drive" wDrive2 wLocal2 emptyPlan = emptyPlan) :=
  ⟨by decide, by decide, by decide,
    hash_equal_files_no_action "drive" wDrive2 wLocal2 emptyPlan
      (by decide) (by decide) (by decide)⟩

/-- C3: same-named files of equal size where at least one side has no truthy
hash are judged by the 60-second modification-time window: within the window
the pair is treated as equal and the common-name step takes no action, beyond
it the pair is judged different. -/
theorem mtime_tolerance_window (conflict_resolution : String) (df lf : FileRec)
    (p : SyncPlan) (hsize : df.size = lf.size)
    (hmd5 : truthyStr df.md5 = false ∨ truthyStr lf.md5 = false) :
    ((df.modifiedTime - lf.modifiedTime).natAbs ≤ 60 →
        are_files_different df lf = false ∧
          common_file_step conflict_resolution df lf p = p) ∧
    ((df.modifiedTime - lf.modifiedTime).natAbs > 60 →
        are_files_different df lf = true) := by
  have hcond : (truthyStr df.md5 && truthyStr lf.md5) = false := by
    rcases hmd5 with h | h <;> simp [h]
  constructor
  · intro ht
    have hdiff : are_files_different df lf = false := by
      simp only [are_files_different, hcond, Bool.false_eq_true, if_false, hsize,
        bne_self_eq_false, decide_eq_false_iff_not]
      omega
    exact ⟨hdiff, by simp [common_file_step, hdiff]⟩
  · intro ht
    simp only [are_files_different, hcond, Bool.false_eq_true, if_false, hsize,
      bne_self_eq_false, decide_eq_true_eq]
    omega

/-- Sample pair for the C3 witness: equal size, no hashes, timestamps 61
seconds apart. -/
def wDrive3 : FileRec := { name := "b.txt", size := some 10, modifiedTime := 61 }

/-- Local half of the C3 witness pair. -/
def wLocal3 : FileRec := { name := "b.txt", size := some 10, modifiedTime := 0 }

theorem mtime_tolerance_window_witness :
    wDrive3.size = wLocal3.size ∧
      (truthyStr wDrive3.md5 = false ∨ truthyStr wLocal3.md5 = false) ∧
      (wDrive3.modifiedTime - wLocal3.modifiedTime).natAbs > 60 ∧
      are_files_different wDrive3 wLocal3 = true :=
  ⟨by decide, Or.inl (by decide), by decide,
    (mtime_tolerance_window "drive" wDrive3 wLocal3 emptyPlan (by decide)
        (Or.inl (by decide))).2 (by decide)⟩

/-- C1 counterexample input, drive side: hashes differ, timestamps tie. -/
def cexDrive1 : FileRec := { name := "a.txt", md5 := some "h1", modifiedTime := 100 }

/-- C1 counterexample input, local side. -/
def cexLocal1 : FileRec := { name := "a.txt", md5 := some "h2", modifiedTime := 100 }

/-- C1 counterexample: a pair judged different whose timestamps tie, under
policy `local`.  Neither side is strictly newer by `modifiedAt`, so the claim
as stated requires the pair to be appended to `conflicts`; the code instead
auto-resolves it toward local (`drive_time > local_time` is false and the
policy is `local`), appending it to `to_upload` and leaving `conflicts`
empty. -/
theorem conflict_policy_tie_counterexample :
    are_files_different cexDrive1 cexLocal1 = true ∧
    cexDrive1.is_google_doc = false ∧
    cexDrive1.modifiedTime = cexLocal1.modifiedTime ∧
    (common_file_step "local" cexDrive1 cexLocal1 emptyPlan).conflicts = [] ∧
    (common_file_step "local" cexDrive1 cexLocal1 emptyPlan).to_upload = [cexLocal1] := by
  decide

/-- C1 as amended: for a pair of same-named, non-opaque files judged
different, the code determines the newer side as drive exactly when
`drive.modifiedAt > local.modifiedAt` (a tie counts as local being newer);
when the policy names that side the pair auto-resolves into `to_download`
(policy drive) or `to_upload` (policy local) without touching `conflicts`,
and otherwise the pair (driveNode, localNode) is appended to `conflicts`. -/
theorem conflict_policy_vs_newer_side (conflict_resolution : String) (df lf : FileRec)
    (p : SyncPlan) (hdiff : are_files_different df lf = true)
    (hdoc : df.is_google_doc = false) :
    (df.modifiedTime > lf.modifiedTime →
      (conflict_resolution = "drive" →
        common_file_step conflict_resolution df lf p = append_download p df) ∧
      (conflict_resolution ≠ "drive" →
        common_file_step conflict_resolution df lf p = append_conflict p df lf)) ∧
    (¬ df.modifiedTime > lf.modifiedTime →
      (conflict_resolution = "local" →
        common_file_step conflict_resolution df lf p = append_upload p lf) ∧
      (conflict_resolution ≠ "local" →
        common_file_step conflict_resolution df lf p = append_conflict p df lf)) := by
  refine ⟨fun hn => ⟨fun hc => ?_, fun hc => ?_⟩, fun hn => ⟨fun hc => ?_, fun hc => ?_⟩⟩ <;>
    simp [common_file_step, hdiff, hdoc, hn, hc]

/-- Drive half of the C1 witness pair: drive strictly newer. -/
def wDrive1 : FileRec := { name := "c.txt", md5 := some "h1", modifiedTime := 200 }

/-- Local half of the C1 witness pair. -/
def wLocal1 : FileRec := { name := "c.txt", md5 := some "h2", modifiedTime := 100 }

theorem conflict_policy_vs_newer_side_witness :
    are_files_different wDrive1 wLocal1 = true ∧ wDrive1.is_google_doc = false ∧
      common_file_step "drive" wDrive1 wLocal1 emptyPlan = append_download emptyPlan wDrive1 :=
  ⟨by decide, by decide,
    ((conflict_policy_vs_newer_side "drive" wDrive1 wLocal1 emptyPlan
        (by decide) (by decide)).1 (by decide)).1 rfl⟩

/-! ### Diffing a tree against itself (C5) -/

/-- The child list of a folder is structurally smaller than the folder. -/
theorem FolderRec.sizeOf_children_lt (f : FolderRec) : sizeOf f.children < sizeOf f := by
  cases f with
  | mk i nm pth fs cs =>
    simp only [FolderRec.children]
    simp

/-- Strong induction over folder records: to prove a property of every
folder, prove it for a folder assuming it for each child. -/
def FolderRec.strong_ind {motive : FolderRec → Prop}
    (step : ∀ f : FolderRec, (∀ c ∈ f.children, motive c) → motive f)
    (f : FolderRec) : motive f :=
  step f (fun c hc => FolderRec.strong_ind step c)
  termination_by sizeOf f
  decreasing_by
    have h1 := List.sizeOf_lt_of_mem hc
    have h2 := FolderRec.sizeOf_children_lt f
    omega

theorem common_file_step_self (conflict_resolution : String) (x : FileRec) (p : SyncPlan) :
    common_file_step conflict_resolution x x p = p := by
  have hdiff : are_files_different x x = false := by
    simp [are_files_different]
  simp [common_file_step, hdiff]

theorem drive_only_file_loop_all_present (dfs lfs : List FileRec) :
    ∀ (ns : List String) (p : SyncPlan),
      (∀ n ∈ ns, (file_lookup lfs n).isSome = true) →
      drive_only_file_loop dfs lfs ns p = p := by
  intro ns
  induction ns with
  | nil => intro p _; rfl
  | cons n ns ih =>
    intro p h
    rcases Option.isSome_iff_exists.mp (h n (List.mem_cons_self n ns)) with ⟨x, hx⟩
    have hrest : ∀ m ∈ ns, (file_lookup lfs m).isSome = true :=
      fun m hm => h m (List.mem_cons_of_mem n hm)
    simp only [drive_only_file_loop, hx]
    cases hd : file_lookup dfs n <;> exact ih _ hrest

theorem local_only_file_loop_all_present (dfs lfs : List FileRec) :
    ∀ (ns : List String) (p : SyncPlan),
      (∀ n ∈ ns, (file_lookup dfs n).isSome = true) →
      local_only_file_loop dfs lfs ns p = p := by
  intro ns
  induction ns with
  | nil => intro p _; rfl
  | cons n ns ih =>
    intro p h
    rcases Option.isSome_iff_exists.mp (h n (List.mem_cons_self n ns)) with ⟨x, hx⟩
    have hrest : ∀ m ∈ ns, (file_lookup dfs m).isSome = true :=
      fun m hm => h m (List.mem_cons_of_mem n hm)
    simp only [local_only_file_loop, hx]
    cases hd : file_lookup lfs n <;> exact ih _ hrest

theorem common_file_loop_self (conflict_resolution : String) (fs : List FileRec) :
    ∀ (ns : List String) (p : SyncPlan),
      common_file_loop conflict_resolution fs fs ns p = p := by
  intro ns
  induction ns with
  | nil => intro p; rfl
  | cons n ns ih =>
    intro p
    simp only [common_file_loop]
    cases hd : file_lookup fs n with
    | none => exact ih _
    | some x =>
      show common_file_loop conflict_resolution fs fs ns
          (common_file_step conflict_resolution x x p) = p
      rw [common_file_step_self]
      exact ih _

theorem compare_files_self (conflict_resolution : String) (f : FolderRec) (p : SyncPlan) :
    compare_files conflict_resolution f f p = p := by
  have hpres : ∀ n ∈ (f.files.map FileRec.name).dedup, (file_lookup f.files n).isSome = true :=
    fun n hn => (dict_lookup_isSome FileRec.name n f.files).mpr (List.mem_dedup.mp hn)
  simp only [compare_files]
  rw [drive_only_file_loop_all_present _ _ _ _ hpres,
    local_only_file_loop_all_present _ _ _ _ hpres,
    common_file_loop_self]

theorem drive_only_folder_loop_all_present (dcs lcs : List FolderRec) :
    ∀ (ns : List String) (p : SyncPlan),
      (∀ n ∈ ns, (folder_lookup lcs n).isSome = true) →
      drive_only_folder_loop dcs lcs ns p = p := by
  intro ns
  induction ns with
  | nil => intro p _; rfl
  | cons n ns ih =>
    intro p h
    rcases Option.isSome_iff_exists.mp (h n (List.mem_cons_self n ns)) with ⟨x, hx⟩
    have hrest : ∀ m ∈ ns, (folder_lookup lcs m).isSome = true :=
      fun m hm => h m (List.mem_cons_of_mem n hm)
    simp only [drive_only_folder_loop, hx]
    cases hd : folder_lookup dcs n <;> exact ih _ hrest

theorem local_only_folder_loop_all_present (dcs lcs : List FolderRec) :
    ∀ (ns : List String) (p : SyncPlan),
      (∀ n ∈ ns, (folder_lookup dcs n).isSome = true) →
      local_only_folder_loop dcs lcs ns p = p := by
  intro ns
  induction ns with
  | nil => intro p _; rfl
  | cons n ns ih =>
    intro p h
    rcases Option.isSome_iff_exists.mp (h n (List.mem_cons_self n ns)) with ⟨x, hx⟩
    have hrest : ∀ m ∈ ns, (folder_lookup dcs m).isSome = true :=
      fun m hm => h m (List.mem_cons_of_mem n hm)
    simp only [local_only_folder_loop, hx]
    cases hd : folder_lookup lcs n <;> exact ih _ hrest

theorem compare_children_self (conflict_resolution : String) :
    ∀ (rest pre : List FolderRec) (p : SyncPlan),
      (∀ c ∈ rest, ∀ q : SyncPlan, compare_folders conflict_resolution c c q = q) →
      compare_children conflict_resolution (pre ++ rest) rest p = p := by
  intro rest
  induction rest with
  | nil => intro pre p _; simp only [compare_children]
  | cons c rest ih =>
    intro pre p h
    have hassoc : pre ++ c :: rest = (pre ++ [c]) ++ rest := by simp
    have hrest : ∀ x ∈ rest, ∀ q : SyncPlan, compare_folders conflict_resolution x x q = q :=
      fun x hx => h x (List.mem_cons_of_mem c hx)
    simp only [compare_children]
    by_cases hsh : (rest.map FolderRec.name).contains c.name = true
    · rw [if_pos hsh, hassoc]
      exact ih (pre ++ [c]) p hrest
    · rw [if_neg hsh]
      have hnot : ∀ y ∈ rest, FolderRec.name y ≠ FolderRec.name c := by
        intro y hy heq
        exact hsh (List.elem_eq_true_of_mem (heq ▸ List.mem_map_of_mem FolderRec.name hy))
      have hlook : folder_lookup (pre ++ c :: rest) c.name = some c :=
        dict_lookup_last FolderRec.name c.name c pre rest rfl hnot
      rw [hlook]
      show compare_children conflict_resolution (pre ++ c :: rest) rest
          (compare_folders conflict_resolution c c p) = p
      rw [h c (List.mem_cons_self c rest) p, hassoc]
      exact ih (pre ++ [c]) p hrest

theorem compare_folders_self (conflict_resolution : String) :
    ∀ (f : FolderRec) (p : SyncPlan), compare_folders conflict_resolution f f p = p := by
  intro f
  refine FolderRec.strong_ind
    (motive := fun f => ∀ p : SyncPlan, compare_folders conflict_resolution f f p = p) ?_ f
  intro g ih p
  cases g with
  | mk i nm pth fs cs =>
    simp only [FolderRec.children] at ih
    have hpres : ∀ n ∈ (cs.map FolderRec.name).dedup, (folder_lookup cs n).isSome = true :=
      fun n hn => (dict_lookup_isSome FolderRec.name n cs).mpr (List.mem_dedup.mp hn)
    simp only [compare_folders, FolderRec.children]
    rw [compare_files_self,
      drive_only_folder_loop_all_present _ _ _ _ hpres,
      local_only_folder_loop_all_present _ _ _ _ hpres]
    exact compare_children_self conflict_resolution cs [] p ih

/-- C5: diffing two identical trees (the same structure on both sides) yields
an empty plan: all five collections of the sync plan are empty. -/
theorem identical_trees_empty_plan (conflict_resolution : String) (tree : FolderRec) :
    (compare_structures conflict_resolution tree tree).to_download = [] ∧
    (compare_structures conflict_resolution tree tree).to_upload = [] ∧
    (compare_structures conflict_resolution tree tree).conflicts = [] ∧
    (compare_structures conflict_resolution tree tree).drive_only_folders = [] ∧
    (compare_structures conflict_resolution tree tree).local_only_folders = [] := by
  have h : compare_structures conflict_resolution tree tree = emptyPlan :=
    compare_folders_self conflict_resolution tree emptyPlan
  rw [h]
  exact ⟨rfl, rfl, rfl, rfl, rfl⟩

/-! ### Path mapping (`sync_executor.py` lines 337-457)

String operations are embedded over character lists, with the same semantics
as the Python string operations on the clean, `/`-separated paths this
program builds and configures: `os.path.join` followed by `os.path.normpath`
is modelled by `join_norm` (an empty component joins to the other side
unchanged), and `os.path.normpath` on an already-clean path is modelled as
the identity apart from trailing-slash stripping. -/

/-- Character-list prefix test (`needle` is a prefix of the second list). -/
def charsPrefixOf : List Char → List Char → Bool
  | [], _ => true
  | _ :: _, [] => false
  | c :: cs, d :: ds => c == d && charsPrefixOf cs ds

/-- Character-list contiguous-substring test (Python's `needle in haystack`). -/
def charsSubstring (needle : List Char) : List Char → Bool
  | [] => charsPrefixOf needle []
  | hay@(_ :: t) => charsPrefixOf needle hay || charsSubstring needle t

/-- Python `s.startswith(pre)`. -/
def strStartsWith (s pre : String) : Bool := charsPrefixOf pre.toList s.toList

/-- Python `s.endswith(suf)`. -/
def strEndsWith (s suf : String) : Bool :=
  charsPrefixOf suf.toList.reverse s.toList.reverse

/-- Python `s[n:]` (slicing by characters). -/
def strDrop (s : String) (n : Nat) : String := String.mk (s.toList.drop n)

/-- Python `len(s)` (in characters). -/
def strLength (s : String) : Nat := s.toList.length

/-- Python `'/' in s`. -/
def containsSlash (s : String) : Bool := s.toList.contains '/'

/-- Python `s.split('/')[0]`. -/
def firstComponent (s : String) : String := String.mk (s.toList.takeWhile (· ≠ '/'))

/-- Python `str.lstrip('/')`. -/
def lstripSlash (s : String) : String := String.mk (s.toList.dropWhile (· = '/'))

/-- Python `str.rstrip('/')` (also used to model the trailing-slash
normalization of `os.path.normpath`). -/
def rstripSlash (s : String) : String :=
  String.mk ((s.toList.reverse.dropWhile (· = '/')).reverse)

/-- `os.path.basename`: the part after the last `/`. -/
def baseName (s : String) : String :=
  String.mk ((s.toList.reverse.takeWhile (· ≠ '/')).reverse)

/-- `os.path.dirname`: the part before the last `/`, empty when there is no
slash. -/
def dirName (s : String) : String :=
  match s.toList.reverse.dropWhile (· ≠ '/') with
  | '/' :: rest => String.mk rest.reverse
  | _ => ""

/-- `os.path.normpath(os.path.join(a, b))` on clean relative components. -/
def join_norm (a b : String) : String :=
  if a = "" then b else if b = "" then a else a ++ "/" ++ b

/-- The prefix-matching loop of `SyncExecutor._get_local_path_for_drive_path`
(sync_executor.py lines 364-381): the `root`/`/` special case, then the
configured-prefix match building `local_folder / relative-part`. -/
def local_path_prefix_loop (drive_path : String) :
    List (String × String) → Option String
  | [] => none
  | (drive_folder, local_folder) :: rest =>
    if (drive_folder = "root" ∨ drive_folder = "/") ∧ ¬ strStartsWith drive_path "/" then
      some (join_norm local_folder drive_path)
    else if strStartsWith drive_path drive_folder ∨ drive_path = drive_folder then
      some (join_norm local_folder
        (lstripSlash
          (if drive_path = drive_folder then ""
           else strDrop drive_path (strLength drive_folder))))
    else local_path_prefix_loop drive_path rest

/-- `SyncExecutor._get_local_path_for_drive_path` (sync_executor.py lines
337-392): a bare name (no `/`) maps into the first configured pair; a full
path goes through the prefix loop; when no prefix matches, the "flexible"
fallback maps the path's basename into the first configured pair.  `none` is
only reachable when the root-pair table is empty. -/
def get_local_path_for_drive_path (sync_folders : List (String × String))
    (drive_path : String) : Option String :=
  if ¬ containsSlash drive_path then
    match sync_folders with
    | (_, local_folder) :: _ => some (join_norm local_folder drive_path)
    | [] => none
  else
    match local_path_prefix_loop drive_path sync_folders with
    | some lp => some lp
    | none =>
      match sync_folders with
      | (_, local_folder) :: _ => some (join_norm local_folder (baseName drive_path))
      | [] => none

/-- `SyncExecutor._get_drive_path_for_local_path` (sync_executor.py lines
394-422): the first pair whose local base folder name is a prefix of the
structure-relative path wins; with no match the mapping fails. -/
def get_drive_path_for_local_path (sync_folders : List (String × String))
    (local_path : String) : Option String :=
  match sync_folders with
  | [] => none
  | (drive_folder, local_base) :: rest =>
    let local_base_name := baseName (rstripSlash local_base)
    if strStartsWith local_path local_base_name then
      let relative_path := lstripSlash (strDrop local_path (strLength local_base_name))
      some (if relative_path = "" then drive_folder
            else rstripSlash drive_folder ++ "/" ++ relative_path)
    else get_drive_path_for_local_path rest local_path

/-- First loop of `SyncExecutor._get_absolute_local_path` (lines 434-441):
replace the local base folder name prefix by the configured local folder. -/
def abs_path_loop1 (relative_path : String) :
    List (String × String) → Option String
  | [] => none
  | (_, local_folder) :: rest =>
    let base := baseName (rstripSlash local_folder)
    if strStartsWith relative_path base then
      some (local_folder ++ strDrop relative_path (strLength base))
    else abs_path_loop1 relative_path rest

/-- Second loop of `_get_absolute_local_path` (lines 444-448): match the
first path component against the local folder's basename. -/
def abs_path_loop2 (first_part relative_path : String) :
    List (String × String) → Option String
  | [] => none
  | (_, local_folder) :: rest =>
    if baseName local_folder = first_part then
      some (join_norm (dirName local_folder) relative_path)
    else abs_path_loop2 first_part relative_path rest

/-- Third loop of `_get_absolute_local_path` (lines 452-455): substring and
suffix probes of the first path component against the local folder. -/
def abs_path_loop3 (first_part relative_path : String) :
    List (String × String) → Option String
  | [] => none
  | (_, local_folder) :: rest =>
    if charsSubstring (("/" ++ first_part ++ "/").toList) ((local_folder ++ "/").toList)
        ∨ strEndsWith local_folder ("/" ++ first_part) then
      some (join_norm local_folder relative_path)
    else abs_path_loop3 first_part relative_path rest

/-- `SyncExecutor._get_absolute_local_path` (sync_executor.py lines
424-457). -/
def get_absolute_local_path (sync_folders : List (String × String))
    (relative_path : String) : Option String :=
  match abs_path_loop1 relative_path sync_folders with
  | some lp => some lp
  | none =>
    let first_part := firstComponent relative_path
    match abs_path_loop2 first_part relative_path sync_folders with
    | some lp => some lp
    | none => abs_path_loop3 first_part relative_path sync_folders

/-- Root-pair table for the C8 counterexample. -/
def cexCfg8 : List (String × String) := [("Docs", "/home/user/MyDocs")]

/-- C8 counterexample: `Other/f.txt` matches no configured root by prefix
(the only configured remote root is `Docs`), yet the remote-to-local mapping
does not fail: it guesses `basename` into the first configured pair and
returns `/home/user/MyDocs/f.txt`. -/
theorem path_mapping_fallback_counterexample :
    strStartsWith "Other/f.txt" "Docs" = false ∧
    ("Other/f.txt" = "Docs") = False ∧
    get_local_path_for_drive_path cexCfg8 "Other/f.txt" = some "/home/user/MyDocs/f.txt" := by
  refine ⟨by decide, by simp, by decide⟩

/-- C8 as amended: the local-to-remote mapping fails (`none`) when no
configured pair's local base name is a prefix of the path; the remote-to-local
mapping, however, only fails on an empty root-pair table and otherwise always
produces some destination (guessing via the first configured pair when no
root matches by prefix). -/
theorem path_mapping_no_prefix_amended (sync_folders : List (String × String))
    (local_path drive_path : String)
    (hlocal : ∀ pr ∈ sync_folders,
      strStartsWith local_path (baseName (rstripSlash pr.2)) = false) :
    get_drive_path_for_local_path sync_folders local_path = none ∧
    get_local_path_for_drive_path [] drive_path = none ∧
    (sync_folders ≠ [] →
      (get_local_path_for_drive_path sync_folders drive_path).isSome = true) := by
  refine ⟨?_, ?_, ?_⟩
  · induction sync_folders with
    | nil => rfl
    | cons pr rest ih =>
      obtain ⟨df, lb⟩ := pr
      have h0 := hlocal (df, lb) (List.mem_cons_self _ _)
      simp only [get_drive_path_for_local_path]
      rw [if_neg (by simp_all)]
      exact ih (fun q hq => hlocal q (List.mem_cons_of_mem _ hq))
  · simp only [get_local_path_for_drive_path, local_path_prefix_loop]
    split <;> rfl
  · intro hne
    match sync_folders with
    | (df, lf) :: rest =>
      simp only [get_local_path_for_drive_path]
      split
      · rfl
      · cases h : local_path_prefix_loop drive_path ((df, lf) :: rest) <;> simp

theorem path_mapping_no_prefix_amended_witness :
    (∀ pr ∈ cexCfg8, strStartsWith "Elsewhere/g.txt" (baseName (rstripSlash pr.2)) = false) ∧
    (get_drive_path_for_local_path cexCfg8 "Elsewhere/g.txt" = none ∧
      get_local_path_for_drive_path [] "Docs/a.txt" = none ∧
      (cexCfg8 ≠ [] →
        (get_local_path_for_drive_path cexCfg8 "Docs/a.txt").isSome = true)) :=
  ⟨by decide,
    path_mapping_no_prefix_amended cexCfg8 "Elsewhere/g.txt" "Docs/a.txt" (by decide)⟩

/-! ### Tree scanners (C9) -/

/-- `fnmatch`-style glob matching over characters: `*` matches any run, `?`
any single character, every other character itself.  The `[...]` character
classes of `fnmatch` are not exercised by this repository and are not
modelled. -/
def globMatch : List Char → List Char → Bool
  | [], [] => true
  | '*' :: ps, [] => globMatch ps []
  | '*' :: ps, c :: cs => globMatch ps (c :: cs) || globMatch ('*' :: ps) cs
  | '?' :: ps, _ :: cs => globMatch ps cs
  | p :: ps, c :: cs => p == c && globMatch ps cs
  | _ :: _, [] => false
  | [], _ :: _ => false
  termination_by p s => (s.length, p.length)

/-- `fnmatch.fnmatch(item_name, pattern)` (POSIX case behavior). -/
def fnmatch (item_name pattern : String) : Bool :=
  globMatch pattern.toList item_name.toList

/-- `SyncEngine._should_exclude` (sync_engine.py lines 197-216). -/
def should_exclude (exclusions : List String) (item_name : String) : Bool :=
  exclusions.any (fun pattern => fnmatch item_name pattern)

/-- One entry of the local filesystem, as the local scanner observes it: a
file carries the metadata `os.stat` and the MD5 digest deliver (the digest is
`none` when hashing failed), a directory carries its listing. -/
inductive LocalEntry where
  | file (name : String) (size : Nat) (mtime : Int) (md5 : Option String)
  | dir (name : String) (entries : List LocalEntry)
  deriving Repr

/-- The `os.listdir` name of a local entry. -/
def LocalEntry.name : LocalEntry → String
  | .file n _ _ _ => n
  | .dir n _ => n

/-- `SyncEngine._scan_local_folder` (sync_engine.py lines 141-195): walk a
listing, skip excluded names entirely, recurse into directories, and append
file records (the MIME-type guess of the source comes from the system
`mimetypes` table and is never consulted by the core, so the field keeps its
default here). -/
def scan_local_folder (exclusions : List String) :
    List LocalEntry → FolderRec → FolderRec
  | [], st => st
  | e :: rest, st =>
    let st :=
      if should_exclude exclusions e.name then st
      else
        match e with
        | .dir nm entries =>
          let child := scan_local_folder exclusions entries
              (FolderRec.mk "local" nm (st.path ++ "/" ++ nm) [] [])
          FolderRec.mk st.id st.name st.path st.files (st.children ++ [child])
        | .file nm size mtime md5 =>
          FolderRec.mk st.id st.name st.path
            (st.files ++ [{ id := "local", name := nm, parent_path := st.path,
                            full_path := st.path ++ "/" ++ nm, size := some size,
                            modifiedTime := mtime, md5 := md5 }])
            st.children
    scan_local_folder exclusions rest st
  termination_by l _ => sizeOf l
  decreasing_by all_goals simp_wf <;> omega

/-- `SyncEngine.scan_local_structure` (sync_engine.py lines 106-139) on an
existing directory whose base name and listing are given. -/
def scan_local_structure (exclusions : List String) (base_name : String)
    (entries : List LocalEntry) : FolderRec :=
  scan_local_folder exclusions entries (FolderRec.mk "local" base_name base_name [] [])

/-- The listing with every excluded name removed, at every depth. -/
def filter_scan_entries (exclusions : List String) : List LocalEntry → List LocalEntry
  | [] => []
  | e :: rest =>
    if should_exclude exclusions e.name then filter_scan_entries exclusions rest
    else
      (match e with
       | .dir nm entries => .dir nm (filter_scan_entries exclusions entries)
       | f => f) :: filter_scan_entries exclusions rest
  termination_by l => sizeOf l
  decreasing_by all_goals simp_wf <;> omega

/-- The raw remote store as the Drive client lists it: every entry carries
the fields requested by `list_files`, a folder's listing hangs off the entry
(consulted only when the MIME type marks a folder). -/
inductive RawItem where
  | mk (id name mimeType : String) (size : Option Nat) (modifiedTime : Int)
       (md5Checksum : Option String) (children : List RawItem)
  deriving Repr

/-- Field `id` of a raw remote entry. -/
def RawItem.id : RawItem → String
  | .mk i _ _ _ _ _ _ => i

/-- Field `name` of a raw remote entry. -/
def RawItem.name : RawItem → String
  | .mk _ n _ _ _ _ _ => n

/-- Field `mimeType` of a raw remote entry. -/
def RawItem.mimeType : RawItem → String
  | .mk _ _ m _ _ _ _ => m

/-- Field `size` of a raw remote entry. -/
def RawItem.size : RawItem → Option Nat
  | .mk _ _ _ s _ _ _ => s

/-- Field `modifiedTime` of a raw remote entry. -/
def RawItem.modifiedTime : RawItem → Int
  | .mk _ _ _ _ t _ _ => t

/-- Field `md5Checksum` of a raw remote entry. -/
def RawItem.md5Checksum : RawItem → Option String
  | .mk _ _ _ _ _ h _ => h

/-- Children of a raw remote entry. -/
def RawItem.children : RawItem → List RawItem
  | .mk _ _ _ _ _ _ cs => cs

/-- The Drive folder MIME type. -/
def folderMime : String := "application/vnd.google-apps.folder"

/-- The Google-native MIME types of `DriveClient.is_google_doc`
(drive_client.py lines 163-181). -/
def google_doc_mimes : List String :=
  ["application/vnd.google-apps.document",
   "application/vnd.google-apps.spreadsheet",
   "application/vnd.google-apps.presentation",
   "application/vnd.google-apps.drawing",
   "application/vnd.google-apps.form",
   "application/vnd.google-apps.script"]

/-- `DriveClient.is_google_doc`. -/
def is_google_doc_mime (mimeType : String) : Bool :=
  google_doc_mimes.contains mimeType

/-- A raw non-folder entry as the file dict that `get_folder_hierarchy`
stores under `files` (the dict is the listing entry itself). -/
def rawToFileRec (it : RawItem) : FileRec :=
  { id := it.id, name := it.name, mimeType := it.mimeType, size := it.size,
    modifiedTime := it.modifiedTime, md5Checksum := it.md5Checksum }

/-- `DriveClient.get_folder_hierarchy` (drive_client.py lines 183-227) with
its recursion-depth fuel (`max_depth`, 10 at the call site): at exhausted
depth only `id` and an empty `children` survive; otherwise the listing is
split into non-folder `files` and recursively walked subfolders.  No
exclusion rule is consulted. -/
def get_folder_hierarchy : Nat → RawItem → FolderRec
  | 0, it => FolderRec.mk it.id "" "" [] []
  | d + 1, it =>
    FolderRec.mk it.id it.name ""
      ((it.children.filter (fun c => c.mimeType ≠ folderMime)).map rawToFileRec)
      ((it.children.filter (fun c => c.mimeType = folderMime)).map
        (get_folder_hierarchy d))

/-- The per-file enrichment of `SyncEngine._enhance_drive_metadata`
(sync_engine.py lines 88-98). -/
def enhance_file (folder_path : String) (f : FileRec) : FileRec :=
  { f with parent_path := folder_path,
           full_path := folder_path ++ "/" ++ f.name,
           is_google_doc := is_google_doc_mime f.mimeType,
           md5 := f.md5Checksum }

mutual

/-- `SyncEngine._enhance_drive_metadata` (sync_engine.py lines 76-104) at a
node whose `path` value is `p`: the source assigns each child's `path` from
the parent before recursing, so the recursion carries the assigned path as an
argument (the `'path' not in item` membership test only fires at the root,
where no path has been assigned yet). -/
def enhance_aux (p : String) : FolderRec → FolderRec
  | .mk i n _ files children =>
    FolderRec.mk i n p (files.map (enhance_file p)) (enhance_children p children)
  termination_by f => sizeOf f
  decreasing_by all_goals simp_wf <;> omega

/-- The child loop of `_enhance_drive_metadata`. -/
def enhance_children (parent_path : String) : List FolderRec → List FolderRec
  | [] => []
  | c :: cs =>
    enhance_aux (parent_path ++ "/" ++ c.name) c :: enhance_children parent_path cs
  termination_by l => sizeOf l
  decreasing_by all_goals simp_wf <;> omega

end

/-- Entry point of `_enhance_drive_metadata`: a missing `path` key (the
hierarchy never sets one, modelled by the empty default) is replaced by the
node's name. -/
def enhance_drive_metadata (item : FolderRec) : FolderRec :=
  enhance_aux (if item.path = "" then item.name else item.path) item

/-- `SyncEngine.scan_drive_structure` (sync_engine.py lines 35-74) after the
folder id has been resolved: the client's hierarchy walk followed by the
metadata enrichment.  No exclusion rule is consulted anywhere on this path. -/
def scan_drive_structure (raw : RawItem) : FolderRec :=
  enhance_drive_metadata (get_folder_hierarchy 10 raw)

mutual

/-- All file names occurring anywhere in a scanned structure. -/
def treeFileNames : FolderRec → List String
  | .mk _ _ _ files children => files.map FileRec.name ++ treeFileNamesList children
  termination_by f => sizeOf f
  decreasing_by all_goals simp_wf <;> omega

/-- All file names occurring in a list of scanned structures. -/
def treeFileNamesList : List FolderRec → List String
  | [] => []
  | c :: cs => treeFileNames c ++ treeFileNamesList cs
  termination_by l => sizeOf l
  decreasing_by all_goals simp_wf <;> omega

end

theorem should_exclude_nil (nm : String) : should_exclude [] nm = false := rfl

theorem scan_step_excluded (exclusions : List String) (e : LocalEntry)
    (rest : List LocalEntry) (st : FolderRec)
    (h : should_exclude exclusions e.name = true) :
    scan_local_folder exclusions (e :: rest) st =
      scan_local_folder exclusions rest st := by
  rw [scan_local_folder.eq_def]
  simp only [h, if_true]

theorem scan_step_file (exclusions : List String) (nm : String) (size : Nat)
    (mtime : Int) (md5 : Option String) (rest : List LocalEntry) (st : FolderRec)
    (h : should_exclude exclusions nm = false) :
    scan_local_folder exclusions (.file nm size mtime md5 :: rest) st =
      scan_local_folder exclusions rest
        (FolderRec.mk st.id st.name st.path
          (st.files ++ [{ id := "local", name := nm, parent_path := st.path,
                          full_path := st.path ++ "/" ++ nm, size := some size,
                          modifiedTime := mtime, md5 := md5 }])
          st.children) := by
  simp only [scan_local_folder, LocalEntry.name, h, Bool.false_eq_true, if_false]

theorem scan_step_dir (exclusions : List String) (nm : String)
    (entries rest : List LocalEntry) (st : FolderRec)
    (h : should_exclude exclusions nm = false) :
    scan_local_folder exclusions (.dir nm entries :: rest) st =
      scan_local_folder exclusions rest
        (FolderRec.mk st.id st.name st.path st.files
          (st.children ++ [scan_local_folder exclusions entries
            (FolderRec.mk "local" nm (st.path ++ "/" ++ nm) [] [])])) := by
  simp only [scan_local_folder, LocalEntry.name, h, Bool.false_eq_true, if_false]

theorem filter_step_excluded (exclusions : List String) (e : LocalEntry)
    (rest : List LocalEntry) (h : should_exclude exclusions e.name = true) :
    filter_scan_entries exclusions (e :: rest) = filter_scan_entries exclusions rest := by
  rw [filter_scan_entries.eq_def]
  simp only [h, if_true]

theorem filter_step_file (exclusions : List String) (nm : String) (size : Nat)
    (mtime : Int) (md5 : Option String) (rest : List LocalEntry)
    (h : should_exclude exclusions nm = false) :
    filter_scan_entries exclusions (.file nm size mtime md5 :: rest) =
      .file nm size mtime md5 :: filter_scan_entries exclusions rest := by
  simp only [filter_scan_entries, LocalEntry.name, h, Bool.false_eq_true, if_false]

theorem filter_step_dir (exclusions : List String) (nm : String)
    (entries rest : List LocalEntry)
    (h : should_exclude exclusions nm = false) :
    filter_scan_entries exclusions (.dir nm entries :: rest) =
      .dir nm (filter_scan_entries exclusions entries) ::
        filter_scan_entries exclusions rest := by
  simp only [filter_scan_entries, LocalEntry.name, h, Bool.false_eq_true, if_false]

theorem scan_local_folder_filter (exclusions : List String) :
    ∀ (es : List LocalEntry) (st : FolderRec),
      scan_local_folder exclusions es st =
        scan_local_folder [] (filter_scan_entries exclusions es) st := by
  have key : ∀ (n : Nat) (es : List LocalEntry), sizeOf es ≤ n → ∀ st : FolderRec,
      scan_local_folder exclusions es st =
        scan_local_folder [] (filter_scan_entries exclusions es) st := by
    intro n
    induction n using Nat.strong_induction_on with
    | _ n ih =>
      intro es hsz st
      match es with
      | [] => simp only [scan_local_folder, filter_scan_entries]
      | e :: rest =>
        have hsze : sizeOf rest < sizeOf (e :: rest) := by
          simp only [List.cons.sizeOf_spec]; omega
        have hrest : sizeOf rest < n := by omega
        by_cases hex : should_exclude exclusions e.name = true
        · rw [scan_step_excluded exclusions e rest st hex,
            filter_step_excluded exclusions e rest hex]
          exact ih (sizeOf rest) hrest rest le_rfl st
        · have hexf : should_exclude exclusions e.name = false :=
            Bool.not_eq_true _ ▸ eq_false_of_ne_true hex
          cases e with
          | file nm size mtime md5 =>
            simp only [LocalEntry.name] at hexf
            rw [scan_step_file exclusions nm size mtime md5 rest st hexf,
              filter_step_file exclusions nm size mtime md5 rest hexf,
              scan_step_file [] nm size mtime md5 _ _ (should_exclude_nil nm)]
            exact ih (sizeOf rest) hrest rest le_rfl _
          | dir nm entries =>
            simp only [LocalEntry.name] at hexf
            have hszent : sizeOf entries < sizeOf (LocalEntry.dir nm entries :: rest) := by
              simp only [List.cons.sizeOf_spec, LocalEntry.dir.sizeOf_spec]; omega
            have hent : sizeOf entries < n := by omega
            rw [scan_step_dir exclusions nm entries rest st hexf,
              filter_step_dir exclusions nm entries rest hexf,
              scan_step_dir [] nm _ _ _ (should_exclude_nil nm),
              ← ih (sizeOf entries) hent entries le_rfl]
            exact ih (sizeOf rest) hrest rest le_rfl _
  intro es st
  exact key (sizeOf es) es le_rfl st

theorem treeFileNamesList_enhance_children (p : String) :
    ∀ cs : List FolderRec,
      (∀ c ∈ cs, ∀ q : String, treeFileNames (enhance_aux q c) = treeFileNames c) →
      treeFileNamesList (enhance_children p cs) = treeFileNamesList cs := by
  intro cs
  induction cs with
  | nil => intro _; simp only [enhance_children]
  | cons c cs ihc =>
    intro h
    simp only [enhance_children, treeFileNamesList]
    rw [h c (List.mem_cons_self c cs) _,
      ihc (fun x hx q => h x (List.mem_cons_of_mem c hx) q)]

theorem treeFileNames_enhance_aux :
    ∀ (f : FolderRec) (p : String),
      treeFileNames (enhance_aux p f) = treeFileNames f := by
  intro f
  refine FolderRec.strong_ind
    (motive := fun f => ∀ p, treeFileNames (enhance_aux p f) = treeFileNames f) ?_ f
  intro g ih p
  cases g with
  | mk i n pth files children =>
    simp only [FolderRec.children] at ih
    simp only [enhance_aux, treeFileNames]
    rw [treeFileNamesList_enhance_children p children ih]
    congr 1
    simp [List.map_map, Function.comp_def, enhance_file]

/-- C9 as amended: the local scanner applies the exclusion filter — scanning
a listing with exclusions equals scanning the listing with every matching
name removed at every level, so a matching item is neither added to the tree
nor, when a folder, recursed into — while the remote scan applies no
exclusion filter: its result keeps exactly the file names the hierarchy walk
listed, at every depth. -/
theorem exclusion_filter_local_scanner_only :
    (∀ (exclusions : List String) (es : List LocalEntry) (st : FolderRec),
        scan_local_folder exclusions es st =
          scan_local_folder [] (filter_scan_entries exclusions es) st) ∧
    (∀ raw : RawItem,
        treeFileNames (scan_drive_structure raw) =
          treeFileNames (get_folder_hierarchy 10 raw)) :=
  ⟨scan_local_folder_filter,
    fun raw => treeFileNames_enhance_aux (get_folder_hierarchy 10 raw) _⟩

/-- Raw remote folder for the C9 counterexample: it contains one plain file
whose name matches the exclusion pattern `*.tmp`. -/
def cexRaw9 : RawItem :=
  .mk "root1" "MyFolder" "application/vnd.google-apps.folder" none 0 none
    [ .mk "f1" "junk.tmp" "text/plain" (some 3) 0 none [] ]

/-- C9 counterexample: the name `junk.tmp` matches the configured exclusion
pattern `*.tmp`, yet the remote scan keeps the file in its resulting tree —
the remote scanner consults no exclusion rule, refuting the claim that both
scanners skip every matching item. -/
theorem remote_scan_keeps_excluded_counterexample :
    should_exclude ["*.tmp"] "junk.tmp" = true ∧
    "junk.tmp" ∈ treeFileNames (scan_drive_structure cexRaw9) := by
  constructor
  · simp +decide [should_exclude, fnmatch, globMatch]
  · simp +decide [scan_drive_structure, enhance_drive_metadata, enhance_aux,
      enhance_children, get_folder_hierarchy, treeFileNames, treeFileNamesList,
      enhance_file, cexRaw9, rawToFileRec, folderMime, is_google_doc_mime,
      google_doc_mimes, RawItem.id, RawItem.name, RawItem.mimeType, RawItem.size,
      RawItem.modifiedTime, RawItem.md5Checksum, RawItem.children,
      FolderRec.name, FolderRec.path, FolderRec.children, FolderRec.files]

/-! ### Plan executor (`sync_executor.py`) -/

/-- One externally visible call the executor makes against the Drive client
or the local filesystem. -/
inductive DriveAction where
  | download (file_id local_path : String)
  | upload (local_path parent_id file_name : String)
  | update (file_id local_path : String)
  | mkdir_local (path : String)
  | create_folder_path (drive_path : String)
  deriving Repr, DecidableEq

/-- The environment the executor runs against: outcomes of the client calls
and filesystem probes it performs.  A call that raises is modelled as the
call failing, since the source catches every per-item exception and treats
it as that item's failure. -/
structure DriveEnv where
  download_ok : String → String → Bool
  upload_ok : String → String → String → Bool
  find_folder_id : String → Option String
  create_folder_path_id : String → Option String
  local_exists : String → Bool
  local_dir_exists : String → Bool

/-- The executor's running statistics (`SyncExecutor.stats`; the wall-clock
`execution_time` entry is outside the model). -/
structure Stats where
  downloaded_files : Nat := 0
  downloaded_bytes : Nat := 0
  uploaded_files : Nat := 0
  uploaded_bytes : Nat := 0
  created_folders : Nat := 0
  created_remote_folders : Nat := 0
  errors : Nat := 0
  deriving Repr, DecidableEq

/-- Executor state: the trace of issued calls plus the statistics. -/
structure ExecState where
  actions : List DriveAction := []
  stats : Stats := {}
  deriving Repr, DecidableEq

/-- Append one call to the trace. -/
def pushAction (s : ExecState) (a : DriveAction) : ExecState :=
  { s with actions := s.actions ++ [a] }

/-- `self.stats['errors'] += 1`. -/
def bump_errors (s : ExecState) : ExecState :=
  { s with stats := { s.stats with errors := s.stats.errors + 1 } }

/-- Destination resolution of `_download_files` (sync_executor.py lines
207-215): the precomputed `local_path` when present, else the path mapper. -/
def download_dest (sync_folders : List (String × String)) (file : FileRec) :
    Option String :=
  match file.local_path with
  | some lp => some lp
  | none => get_local_path_for_drive_path sync_folders file.full_path

/-- One iteration of `SyncExecutor._download_files` (lines 195-237): skip
Google-native documents, skip — without counting an error — files with no
resolvable destination, otherwise issue the download and count its success
or failure.  The `os.makedirs` call on the destination's directory is not
traced. -/
def download_one (env : DriveEnv) (sync_folders : List (String × String))
    (s : ExecState) (file : FileRec) : ExecState :=
  if file.is_google_doc then s
  else
    match download_dest sync_folders file with
    | none => s
    | some lp =>
      let s := pushAction s (.download file.id lp)
      if env.download_ok file.id lp then
        { s with stats := { s.stats with
            downloaded_files := s.stats.downloaded_files + 1,
            downloaded_bytes := s.stats.downloaded_bytes + file.size.getD 0 } }
      else bump_errors s

/-- `SyncExecutor._download_files` (sync_executor.py lines 183-237). -/
def download_files (env : DriveEnv) (sync_folders : List (String × String))
    (files : List FileRec) (s : ExecState) : ExecState :=
  files.foldl (download_one env sync_folders) s

/-- Parent-folder resolution of `_upload_files` (lines 269-277): find the
Drive folder by path, else try to create the path. -/
def resolve_parent_id (env : DriveEnv) (drive_parent_path : String) : Option String :=
  match env.find_folder_id drive_parent_path with
  | some pid => some pid
  | none => env.create_folder_path_id drive_parent_path

/-- One iteration of `SyncExecutor._upload_files` (lines 251-296): skip —
without counting an error — files whose absolute local path cannot be derived
or does not exist and files whose Drive parent path cannot be mapped; count
an error when the parent folder cannot be found or created; otherwise issue
the upload and count its success or failure. -/
def upload_one (env : DriveEnv) (sync_folders : List (String × String))
    (s : ExecState) (file : FileRec) : ExecState :=
  match get_absolute_local_path sync_folders file.full_path with
  | none => s
  | some lp =>
    if ¬ env.local_exists lp then s
    else
      match get_drive_path_for_local_path sync_folders file.parent_path with
      | none => s
      | some dpp =>
        match resolve_parent_id env dpp with
        | none => bump_errors s
        | some pid =>
          let s := pushAction s (.upload lp pid file.name)
          if env.upload_ok lp pid file.name then
            { s with stats := { s.stats with
                uploaded_files := s.stats.uploaded_files + 1,
                uploaded_bytes := s.stats.uploaded_bytes + file.size.getD 0 } }
          else bump_errors s

/-- `SyncExecutor._upload_files` (sync_executor.py lines 239-296). -/
def upload_files (env : DriveEnv) (sync_folders : List (String × String))
    (files : List FileRec) (s : ExecState) : ExecState :=
  files.foldl (upload_one env sync_folders) s

/-- `SyncExecutor._create_missing_folders` (lines 109-143): map each captured
drive-only folder to a local path (an unmappable folder is skipped without an
error), create the directory when absent, and recurse into the captured
children.  `create_missing_folder_step` is the per-folder body (lines
119-135), `create_missing_folders` the loop and recursion. -/
def create_missing_folder_step (env : DriveEnv)
    (sync_folders : List (String × String)) (s : ExecState)
    (folder : FolderRec) : ExecState :=
  match get_local_path_for_drive_path sync_folders folder.path with
  | none => s
  | some lp =>
    if ¬ env.local_dir_exists lp then
      let s := pushAction s (.mkdir_local lp)
      { s with stats := { s.stats with
          created_folders := s.stats.created_folders + 1 } }
    else s

/-- The recursion of `_create_missing_folders` over the captured list. -/
def create_missing_folders (env : DriveEnv) (sync_folders : List (String × String)) :
    List FolderRec → ExecState → ExecState
  | [], s => s
  | folder :: rest, s =>
    let s := create_missing_folder_step env sync_folders s folder
    let s := create_missing_folders env sync_folders folder.children s
    create_missing_folders env sync_folders rest s
  termination_by l _ => sizeOf l
  decreasing_by all_goals
    have hch := FolderRec.sizeOf_children_lt folder
    simp_wf <;> omega

/-- `SyncExecutor._create_remote_folders` (lines 145-181): map each captured
local-only folder to a Drive path (an unmappable folder is skipped without an
error), create the folder path on Drive counting success or failure, and
recurse into the captured children.  `create_remote_folder_step` is the
per-folder body (lines 154-173), `create_remote_folders` the loop and
recursion. -/
def create_remote_folder_step (env : DriveEnv)
    (sync_folders : List (String × String)) (s : ExecState)
    (folder : FolderRec) : ExecState :=
  match get_drive_path_for_local_path sync_folders folder.path with
  | none => s
  | some dp =>
    let s := pushAction s (.create_folder_path dp)
    match env.create_folder_path_id dp with
    | some _ =>
      { s with stats := { s.stats with
          created_remote_folders := s.stats.created_remote_folders + 1 } }
    | none => bump_errors s

/-- The recursion of `_create_remote_folders` over the captured list. -/
def create_remote_folders (env : DriveEnv) (sync_folders : List (String × String)) :
    List FolderRec → ExecState → ExecState
  | [], s => s
  | folder :: rest, s =>
    let s := create_remote_folder_step env sync_folders s folder
    let s := create_remote_folders env sync_folders folder.children s
    create_remote_folders env sync_folders rest s
  termination_by l _ => sizeOf l
  decreasing_by all_goals
    have hch := FolderRec.sizeOf_children_lt folder
    simp_wf <;> omega

/-- `SyncExecutor._resolve_conflicts_from_drive` (sync_executor.py lines
298-309): download the drive side of every conflict pair exactly as the
transfer phase does. -/
def resolve_conflicts_from_drive (env : DriveEnv)
    (sync_folders : List (String × String))
    (conflicts : List (FileRec × FileRec)) (s : ExecState) : ExecState :=
  download_files env sync_folders (conflicts.map Prod.fst) s

/-- One iteration of the in-place update loop of
`_resolve_conflicts_from_local` (lines 325-335): for a pair with a truthy
drive id whose local file resolves and exists, update the existing Drive
file under that id.  The call's return value is not inspected and no
statistic changes. -/
def conflict_update_step (env : DriveEnv) (sync_folders : List (String × String))
    (s : ExecState) (pair : FileRec × FileRec) : ExecState :=
  if pair.1.id ≠ "" then
    match get_absolute_local_path sync_folders pair.2.full_path with
    | some lp =>
      if env.local_exists lp then pushAction s (.update pair.1.id lp) else s
    | none => s
  else s

/-- `SyncExecutor._resolve_conflicts_from_local` (sync_executor.py lines
311-335): upload the local side of every conflict pair exactly as the
transfer phase does, then update each conflict's existing Drive file in
place. -/
def resolve_conflicts_from_local (env : DriveEnv)
    (sync_folders : List (String × String))
    (conflicts : List (FileRec × FileRec)) (s : ExecState) : ExecState :=
  conflicts.foldl (conflict_update_step env sync_folders)
    (upload_files env sync_folders (conflicts.map Prod.snd) s)

/-- `SyncExecutor.execute_plan` (sync_executor.py lines 42-107): statistics
reset at entry; the down phases run when the direction is `down` or `both`
(create local folders, download, resolve conflicts when
`preferences.get('conflict_resolution', 'drive') == 'drive'`); the up phases
run when the direction is `up` or `both` (create remote folders, upload,
resolve conflicts when
`preferences.get('conflict_resolution', 'local') == 'local'`). -/
def execute_plan (env : DriveEnv) (sync_folders : List (String × String))
    (conflict_resolution_pref : Option String) (plan : SyncPlan)
    (direction : String) : ExecState :=
  let s : ExecState := {}
  let s :=
    if direction = "down" ∨ direction = "both" then
      let s := create_missing_folders env sync_folders plan.drive_only_folders s
      let s := download_files env sync_folders plan.to_download s
      if conflict_resolution_pref.getD "drive" = "drive" then
        resolve_conflicts_from_drive env sync_folders plan.conflicts s
      else s
    else s
  if direction = "up" ∨ direction = "both" then
    let s := create_remote_folders env sync_folders plan.local_only_folders s
    let s := upload_files env sync_folders plan.to_upload s
    if conflict_resolution_pref.getD "local" = "local" then
      resolve_conflicts_from_local env sync_folders plan.conflicts s
    else s
  else s

/-- The download call a file generates in `_download_files`, independent of
the rest of the batch and of any earlier outcome. -/
def download_attempt (sync_folders : List (String × String)) (file : FileRec) :
    Option DriveAction :=
  if file.is_google_doc then none
  else (download_dest sync_folders file).map (fun lp => .download file.id lp)

/-- The number of errors a single file contributes in `_download_files`. -/
def download_err (env : DriveEnv) (sync_folders : List (String × String))
    (file : FileRec) : Nat :=
  if file.is_google_doc then 0
  else
    match download_dest sync_folders file with
    | none => 0
    | some lp => if env.download_ok file.id lp then 0 else 1

theorem download_one_spec (env : DriveEnv) (sync_folders : List (String × String))
    (s : ExecState) (f : FileRec) :
    (download_one env sync_folders s f).actions =
        s.actions ++ (download_attempt sync_folders f).toList ∧
    (download_one env sync_folders s f).stats.errors =
        s.stats.errors + download_err env sync_folders f := by
  unfold download_one download_attempt download_err
  by_cases hdoc : f.is_google_doc = true
  · simp [hdoc]
  · simp only [hdoc, Bool.false_eq_true, if_false]
    cases hd : download_dest sync_folders f with
    | none => simp
    | some lp =>
      by_cases hok : env.download_ok f.id lp = true <;>
        simp [hok, pushAction, bump_errors]

theorem download_files_spec (env : DriveEnv) (sync_folders : List (String × String)) :
    ∀ (files : List FileRec) (s : ExecState),
      (download_files env sync_folders files s).actions =
          s.actions ++ files.filterMap (download_attempt sync_folders) ∧
      (download_files env sync_folders files s).stats.errors =
          s.stats.errors + (files.map (download_err env sync_folders)).sum := by
  intro files
  induction files with
  | nil => intro s; simp [download_files]
  | cons f fs ih =>
    intro s
    have step : download_files env sync_folders (f :: fs) s =
        download_files env sync_folders fs (download_one env sync_folders s f) := rfl
    rcases ih (download_one env sync_folders s f) with ⟨ha, he⟩
    rcases download_one_spec env sync_folders s f with ⟨h1, h2⟩
    rw [step, ha, he, h1, h2]
    constructor
    · rw [List.filterMap_cons]
      cases download_attempt sync_folders f <;> simp
    · rw [List.map_cons, List.sum_cons]
      omega

/-- The upload call a file generates in `_upload_files`, independent of the
rest of the batch and of any earlier outcome. -/
def upload_attempt (env : DriveEnv) (sync_folders : List (String × String))
    (file : FileRec) : Option DriveAction :=
  match get_absolute_local_path sync_folders file.full_path with
  | none => none
  | some lp =>
    if ¬ env.local_exists lp then none
    else
      match get_drive_path_for_local_path sync_folders file.parent_path with
      | none => none
      | some dpp =>
        (resolve_parent_id env dpp).map (fun pid => .upload lp pid file.name)

/-- The number of errors a single file contributes in `_upload_files`. -/
def upload_err (env : DriveEnv) (sync_folders : List (String × String))
    (file : FileRec) : Nat :=
  match get_absolute_local_path sync_folders file.full_path with
  | none => 0
  | some lp =>
    if ¬ env.local_exists lp then 0
    else
      match get_drive_path_for_local_path sync_folders file.parent_path with
      | none => 0
      | some dpp =>
        match resolve_parent_id env dpp with
        | none => 1
        | some pid => if env.upload_ok lp pid file.name then 0 else 1

theorem upload_one_spec (env : DriveEnv) (sync_folders : List (String × String))
    (s : ExecState) (f : FileRec) :
    (upload_one env sync_folders s f).actions =
        s.actions ++ (upload_attempt env sync_folders f).toList ∧
    (upload_one env sync_folders s f).stats.errors =
        s.stats.errors + upload_err env sync_folders f := by
  unfold upload_one upload_attempt upload_err
  cases h1 : get_absolute_local_path sync_folders f.full_path with
  | none => simp
  | some lp =>
    by_cases hex : env.local_exists lp = true
    · cases h2 : get_drive_path_for_local_path sync_folders f.parent_path with
      | none => simp [hex]
      | some dpp =>
        cases h3 : resolve_parent_id env dpp with
        | none => simp [hex, h2, h3, bump_errors]
        | some pid =>
          by_cases hok : env.upload_ok lp pid f.name = true <;>
            simp [hex, h2, h3, hok, pushAction, bump_errors]
    · simp [hex]

theorem upload_files_spec (env : DriveEnv) (sync_folders : List (String × String)) :
    ∀ (files : List FileRec) (s : ExecState),
      (upload_files env sync_folders files s).actions =
          s.actions ++ files.filterMap (upload_attempt env sync_folders) ∧
      (upload_files env sync_folders files s).stats.errors =
          s.stats.errors + (files.map (upload_err env sync_folders)).sum := by
  intro files
  induction files with
  | nil => intro s; simp [upload_files]
  | cons f fs ih =>
    intro s
    have step : upload_files env sync_folders (f :: fs) s =
        upload_files env sync_folders fs (upload_one env sync_folders s f) := rfl
    rcases ih (upload_one env sync_folders s f) with ⟨ha, he⟩
    rcases upload_one_spec env sync_folders s f with ⟨h1, h2⟩
    rw [step, ha, he, h1, h2]
    constructor
    · rw [List.filterMap_cons]
      cases upload_attempt env sync_folders f <;> simp
    · rw [List.map_cons, List.sum_cons]
      omega

/-- The in-place update call a conflict pair generates in
`_resolve_conflicts_from_local`. -/
def conflict_update_action (env : DriveEnv) (sync_folders : List (String × String))
    (pair : FileRec × FileRec) : Option DriveAction :=
  if pair.1.id ≠ "" then
    match get_absolute_local_path sync_folders pair.2.full_path with
    | some lp =>
      if env.local_exists lp then some (.update pair.1.id lp) else none
    | none => none
  else none

theorem conflict_update_fold_spec (env : DriveEnv) (sync_folders : List (String × String)) :
    ∀ (pairs : List (FileRec × FileRec)) (s : ExecState),
      (pairs.foldl (conflict_update_step env sync_folders) s).actions =
          s.actions ++ pairs.filterMap (conflict_update_action env sync_folders) ∧
      (pairs.foldl (conflict_update_step env sync_folders) s).stats = s.stats := by
  intro pairs
  induction pairs with
  | nil => intro s; simp
  | cons pr prs ih =>
    intro s
    rw [List.foldl_cons]
    rcases ih (conflict_update_step env sync_folders s pr) with ⟨ha, hs⟩
    rw [ha, hs]
    have hstep : (conflict_update_step env sync_folders s pr).actions =
        s.actions ++ (conflict_update_action env sync_folders pr).toList ∧
        (conflict_update_step env sync_folders s pr).stats = s.stats := by
      unfold conflict_update_step conflict_update_action
      by_cases hid : pr.1.id = ""
      · simp [hid]
      · cases hl : get_absolute_local_path sync_folders pr.2.full_path with
        | none => simp [hid]
        | some lp =>
          by_cases hex : env.local_exists lp = true <;> simp [hid, hex, pushAction]
    rcases hstep with ⟨h1, h2⟩
    rw [h1, h2, List.filterMap_cons]
    cases conflict_update_action env sync_folders pr <;> simp

/-- C6: conflict resolution under policy `drive` downloads the drive side of
each pair exactly as the phase-2 transfer does; under policy `local` it
uploads the local side of each pair exactly as the phase-2 transfer does and
then, for each pair with a known remote id whose local file resolves and
exists, issues an in-place content update addressed by that existing id (an
update call, not a create), leaving the statistics of the upload phase
unchanged. -/
theorem conflict_resolution_mirrors_transfer (env : DriveEnv)
    (sync_folders : List (String × String))
    (conflicts : List (FileRec × FileRec)) (s : ExecState) :
    resolve_conflicts_from_drive env sync_folders conflicts s =
        download_files env sync_folders (conflicts.map Prod.fst) s ∧
    (resolve_conflicts_from_local env sync_folders conflicts s).actions =
        (upload_files env sync_folders (conflicts.map Prod.snd) s).actions ++
          conflicts.filterMap (conflict_update_action env sync_folders) ∧
    (resolve_conflicts_from_local env sync_folders conflicts s).stats =
        (upload_files env sync_folders (conflicts.map Prod.snd) s).stats := by
  refine ⟨rfl, ?_, ?_⟩
  · exact (conflict_update_fold_spec env sync_folders conflicts _).1
  · exact (conflict_update_fold_spec env sync_folders conflicts _).2

/-- C7 as amended: in both transfer phases, the call a given item generates
and the errors it contributes depend only on that item — so when transferring
item k of n fails, items k+1..n are still attempted — and the final error
counter equals the starting counter plus the sum of the per-item error
contributions (one per failed transfer call or failed parent-folder
creation).  An item whose path cannot be mapped to a destination, however, is
skipped without generating a call and contributes zero to the error counter
(the original claim's "counted as an execution error" does not hold). -/
theorem executor_error_accounting :
    (∀ (env : DriveEnv) (sync_folders : List (String × String))
        (files : List FileRec) (s : ExecState),
      (download_files env sync_folders files s).actions =
          s.actions ++ files.filterMap (download_attempt sync_folders) ∧
      (download_files env sync_folders files s).stats.errors =
          s.stats.errors + (files.map (download_err env sync_folders)).sum) ∧
    (∀ (env : DriveEnv) (sync_folders : List (String × String))
        (files : List FileRec) (s : ExecState),
      (upload_files env sync_folders files s).actions =
          s.actions ++ files.filterMap (upload_attempt env sync_folders) ∧
      (upload_files env sync_folders files s).stats.errors =
          s.stats.errors + (files.map (upload_err env sync_folders)).sum) ∧
    (∀ (env : DriveEnv) (sync_folders : List (String × String)) (file : FileRec),
      file.is_google_doc = false → download_dest sync_folders file = none →
        download_attempt sync_folders file = none ∧
          download_err env sync_folders file = 0) :=
  ⟨fun env cfg files s => download_files_spec env cfg files s,
   fun env cfg files s => upload_files_spec env cfg files s,
   fun env cfg file hdoc hdest => by
    constructor
    · simp [download_attempt, hdoc, hdest]
    · simp [download_err, hdoc, hdest]⟩

/-- An environment whose client calls all succeed and whose filesystem
probes report files present and directories absent. -/
def envAllOk : DriveEnv :=
  { download_ok := fun _ _ => true, upload_ok := fun _ _ _ => true,
    find_folder_id := fun _ => some "fid",
    create_folder_path_id := fun _ => some "fid",
    local_exists := fun _ => true, local_dir_exists := fun _ => false }

/-- C7 counterexample item: with an empty root-pair table and no precomputed
destination, its path maps to no destination. -/
def cexFile7 : FileRec := { id := "d9", name := "a.txt", full_path := "Docs/a.txt" }

/-- C7 counterexample: running the download phase on a batch holding only an
item whose path cannot be mapped skips it and leaves the error counter at
zero, where the claim requires the skipped item to be counted as an
execution error (a count of one). -/
theorem unmappable_item_no_error_counterexample :
    cexFile7.is_google_doc = false ∧
    cexFile7.local_path = none ∧
    download_dest [] cexFile7 = none ∧
    (download_files envAllOk [] [cexFile7] {}).stats.errors = 0 ∧
    (download_files envAllOk [] [cexFile7] {}).actions = [] := by
  refine ⟨by decide, by decide, by decide, by decide, by decide⟩

theorem executor_error_accounting_witness :
    cexFile7.is_google_doc = false ∧ download_dest [] cexFile7 = none ∧
      (download_attempt [] cexFile7 = none ∧
        download_err envAllOk [] cexFile7 = 0) :=
  ⟨by decide, by decide,
    executor_error_accounting.2.2 envAllOk [] cexFile7 (by decide) (by decide)⟩

theorem create_missing_folder_step_mono (env : DriveEnv)
    (sync_folders : List (String × String)) (s : ExecState) (folder : FolderRec) :
    ∃ t, (create_missing_folder_step env sync_folders s folder).actions =
      s.actions ++ t := by
  unfold create_missing_folder_step
  cases h : get_local_path_for_drive_path sync_folders folder.path with
  | none => exact ⟨[], by simp⟩
  | some lp =>
    by_cases hd : env.local_dir_exists lp = true
    · exact ⟨[], by simp [hd]⟩
    · exact ⟨[.mkdir_local lp], by simp [hd, pushAction]⟩

theorem create_remote_folder_step_mono (env : DriveEnv)
    (sync_folders : List (String × String)) (s : ExecState) (folder : FolderRec) :
    ∃ t, (create_remote_folder_step env sync_folders s folder).actions =
      s.actions ++ t := by
  unfold create_remote_folder_step
  cases h : get_drive_path_for_local_path sync_folders folder.path with
  | none => exact ⟨[], by simp⟩
  | some dp =>
    cases h2 : env.create_folder_path_id dp with
    | none => exact ⟨[.create_folder_path dp], by simp [h2, pushAction, bump_errors]⟩
    | some pid => exact ⟨[.create_folder_path dp], by simp [h2, pushAction]⟩

theorem create_missing_folders_mono (env : DriveEnv)
    (sync_folders : List (String × String)) :
    ∀ (folders : List FolderRec) (s : ExecState),
      ∃ t, (create_missing_folders env sync_folders folders s).actions =
        s.actions ++ t := by
  have key : ∀ (n : Nat) (folders : List FolderRec), sizeOf folders ≤ n →
      ∀ s : ExecState,
        ∃ t, (create_missing_folders env sync_folders folders s).actions =
          s.actions ++ t := by
    intro n
    induction n using Nat.strong_induction_on with
    | _ n ih =>
      intro folders hsz s
      match folders with
      | [] => exact ⟨[], by simp [create_missing_folders]⟩
      | folder :: rest =>
        have hf : sizeOf folder.children < n := by
          have h1 := FolderRec.sizeOf_children_lt folder
          simp only [List.cons.sizeOf_spec] at hsz
          omega
        have hr : sizeOf rest < n := by
          simp only [List.cons.sizeOf_spec] at hsz
          omega
        obtain ⟨t0, ht0⟩ :=
          create_missing_folder_step_mono env sync_folders s folder
        obtain ⟨t1, ht1⟩ := ih (sizeOf folder.children) hf folder.children le_rfl
          (create_missing_folder_step env sync_folders s folder)
        obtain ⟨t2, ht2⟩ := ih (sizeOf rest) hr rest le_rfl
          (create_missing_folders env sync_folders folder.children
            (create_missing_folder_step env sync_folders s folder))
        refine ⟨t0 ++ t1 ++ t2, ?_⟩
        simp only [create_missing_folders]
        rw [ht2, ht1, ht0]
        simp [List.append_assoc]
  intro folders s
  exact key (sizeOf folders) folders le_rfl s

theorem create_remote_folders_mono (env : DriveEnv)
    (sync_folders : List (String × String)) :
    ∀ (folders : List FolderRec) (s : ExecState),
      ∃ t, (create_remote_folders env sync_folders folders s).actions =
        s.actions ++ t := by
  have key : ∀ (n : Nat) (folders : List FolderRec), sizeOf folders ≤ n →
      ∀ s : ExecState,
        ∃ t, (create_remote_folders env sync_folders folders s).actions =
          s.actions ++ t := by
    intro n
    induction n using Nat.strong_induction_on with
    | _ n ih =>
      intro folders hsz s
      match folders with
      | [] => exact ⟨[], by simp [create_remote_folders]⟩
      | folder :: rest =>
        have hf : sizeOf folder.children < n := by
          have h1 := FolderRec.sizeOf_children_lt folder
          simp only [List.cons.sizeOf_spec] at hsz
          omega
        have hr : sizeOf rest < n := by
          simp only [List.cons.sizeOf_spec] at hsz
          omega
        obtain ⟨t0, ht0⟩ :=
          create_remote_folder_step_mono env sync_folders s folder
        obtain ⟨t1, ht1⟩ := ih (sizeOf folder.children) hf folder.children le_rfl
          (create_remote_folder_step env sync_folders s folder)
        obtain ⟨t2, ht2⟩ := ih (sizeOf rest) hr rest le_rfl
          (create_remote_folders env sync_folders folder.children
            (create_remote_folder_step env sync_folders s folder))
        refine ⟨t0 ++ t1 ++ t2, ?_⟩
        simp only [create_remote_folders]
        rw [ht2, ht1, ht0]
        simp [List.append_assoc]
  intro folders s
  exact key (sizeOf folders) folders le_rfl s

/-- C10: with the `conflict_resolution` preference unset, the executor's down
phase reads the policy with default `drive` and its up phase with default
`local`, so both phase-3 branches fire: executing a plan with direction
`both` resolves every conflict pair twice — the remote side's download call
is issued (over the mapped local file) and the local side's upload call is
issued against the remote store, in the same run. -/
theorem unset_policy_double_resolution (env : DriveEnv)
    (sync_folders : List (String × String)) (plan : SyncPlan) (df lf : FileRec)
    (hmem : (df, lf) ∈ plan.conflicts) (a b : DriveAction)
    (ha : download_attempt sync_folders df = some a)
    (hb : upload_attempt env sync_folders lf = some b) :
    a ∈ (execute_plan env sync_folders none plan "both").actions ∧
    b ∈ (execute_plan env sync_folders none plan "both").actions := by
  have hchain : execute_plan env sync_folders none plan "both" =
      resolve_conflicts_from_local env sync_folders plan.conflicts
        (upload_files env sync_folders plan.to_upload
          (create_remote_folders env sync_folders plan.local_only_folders
            (resolve_conflicts_from_drive env sync_folders plan.conflicts
              (download_files env sync_folders plan.to_download
                (create_missing_folders env sync_folders
                  plan.drive_only_folders {}))))) := rfl
  rw [hchain]
  have hA3 : a ∈ (resolve_conflicts_from_drive env sync_folders plan.conflicts
      (download_files env sync_folders plan.to_download
        (create_missing_folders env sync_folders plan.drive_only_folders {}))).actions := by
    rw [resolve_conflicts_from_drive,
      (download_files_spec env sync_folders (plan.conflicts.map Prod.fst) _).1]
    exact List.mem_append.mpr (Or.inr
      (List.mem_filterMap.mpr ⟨df, List.mem_map_of_mem Prod.fst hmem, ha⟩))
  obtain ⟨t4, ht4⟩ := create_remote_folders_mono env sync_folders plan.local_only_folders
    (resolve_conflicts_from_drive env sync_folders plan.conflicts
      (download_files env sync_folders plan.to_download
        (create_missing_folders env sync_folders plan.drive_only_folders {})))
  have hA4 : a ∈ (create_remote_folders env sync_folders plan.local_only_folders
      (resolve_conflicts_from_drive env sync_folders plan.conflicts
        (download_files env sync_folders plan.to_download
          (create_missing_folders env sync_folders plan.drive_only_folders {})))).actions := by
    rw [ht4]; exact List.mem_append.mpr (Or.inl hA3)
  have hA5 : a ∈ (upload_files env sync_folders plan.to_upload
      (create_remote_folders env sync_folders plan.local_only_folders
        (resolve_conflicts_from_drive env sync_folders plan.conflicts
          (download_files env sync_folders plan.to_download
            (create_missing_folders env sync_folders plan.drive_only_folders {}))))).actions := by
    rw [(upload_files_spec env sync_folders plan.to_upload _).1]
    exact List.mem_append.mpr (Or.inl hA4)
  have hup2 := (upload_files_spec env sync_folders (plan.conflicts.map Prod.snd)
    (upload_files env sync_folders plan.to_upload
      (create_remote_folders env sync_folders plan.local_only_folders
        (resolve_conflicts_from_drive env sync_folders plan.conflicts
          (download_files env sync_folders plan.to_download
            (create_missing_folders env sync_folders plan.drive_only_folders {})))))).1
  have hfold := (conflict_update_fold_spec env sync_folders plan.conflicts
    (upload_files env sync_folders (plan.conflicts.map Prod.snd)
      (upload_files env sync_folders plan.to_upload
        (create_remote_folders env sync_folders plan.local_only_folders
          (resolve_conflicts_from_drive env sync_folders plan.conflicts
            (download_files env sync_folders plan.to_download
              (create_missing_folders env sync_folders plan.drive_only_folders {}))))))).1
  constructor
  · rw [resolve_conflicts_from_local, hfold, hup2]
    exact List.mem_append.mpr (Or.inl (List.mem_append.mpr (Or.inl hA5)))
  · rw [resolve_conflicts_from_local, hfold, hup2]
    exact List.mem_append.mpr (Or.inl (List.mem_append.mpr (Or.inr
      (List.mem_filterMap.mpr ⟨lf, List.mem_map_of_mem Prod.snd hmem, hb⟩))))

/-- Root-pair table for the C10 witness. -/
def cfgW10 : List (String × String) := [("Docs", "/home/u/Docs")]

/-- Drive side of the C10 witness conflict pair. -/
def wD10 : FileRec := { id := "did", name := "a.txt", full_path := "Docs/a.txt" }

/-- Local side of the C10 witness conflict pair. -/
def wL10 : FileRec :=
  { id := "local", name := "a.txt", parent_path := "Docs", full_path := "Docs/a.txt" }

/-- Plan holding one conflict pair for the C10 witness. -/
def wPlan10 : SyncPlan := { conflicts := [(wD10, wL10)] }

theorem unset_policy_double_resolution_witness :
    (wD10, wL10) ∈ wPlan10.conflicts ∧
    download_attempt cfgW10 wD10 =
      some (.download "did" "/home/u/Docs/a.txt") ∧
    upload_attempt envAllOk cfgW10 wL10 =
      some (.upload "/home/u/Docs/a.txt" "fid" "a.txt") ∧
    (DriveAction.download "did" "/home/u/Docs/a.txt" ∈
        (execute_plan envAllOk cfgW10 none wPlan10 "both").actions ∧
      DriveAction.upload "/home/u/Docs/a.txt" "fid" "a.txt" ∈
        (execute_plan envAllOk cfgW10 none wPlan10 "both").actions) :=
  ⟨by decide, by decide, by decide,
    unset_policy_double_resolution envAllOk cfgW10 wPlan10 wD10 wL10 (by decide)
      _ _ (by decide) (by decide)⟩

/-! ### The plan-membership invariant (C4)

A node of a scanned tree is identified by its canonical path (`full_path`
for files, `path` for folders).  `subtreePaths` collects the paths of every
node strictly below a folder; the drive (resp. local) footprint of a plan
collects the path of every drive-side (resp. local-side) node the plan
references — transfer entries, the respective element of each conflict pair,
and each captured one-sided folder together with its whole subtree.  A
footprint without duplicates says precisely that each node is referenced at
most once and that no descendant of a captured folder is referenced
individually. -/

mutual

/-- The canonical paths of every node strictly below a folder. -/
def subtreePaths : FolderRec → List String
  | .mk _ _ _ files children => files.map FileRec.full_path ++ subtreePathsList children
  termination_by f => sizeOf f
  decreasing_by all_goals simp_wf <;> omega

/-- The canonical paths of a list of folders and of all their descendants. -/
def subtreePathsList : List FolderRec → List String
  | [] => []
  | c :: cs => (c.path :: subtreePaths c) ++ subtreePathsList cs
  termination_by l => sizeOf l
  decreasing_by all_goals simp_wf <;> omega

end

/-- A folder node's own path together with its subtree's paths. -/
def folderFootprint (g : FolderRec) : List String := g.path :: subtreePaths g

/-- Every drive-side node path a plan references. -/
def driveFootprint (p : SyncPlan) : List String :=
  p.to_download.map FileRec.full_path ++
    p.conflicts.map (fun pr => pr.1.full_path) ++
    subtreePathsList p.drive_only_folders

/-- Every local-side node path a plan references. -/
def localFootprint (p : SyncPlan) : List String :=
  p.to_upload.map FileRec.full_path ++
    p.conflicts.map (fun pr => pr.2.full_path) ++
    subtreePathsList p.local_only_folders

/-- Component-wise concatenation of two plans. -/
def planAppend (p q : SyncPlan) : SyncPlan where
  to_download := p.to_download ++ q.to_download
  to_upload := p.to_upload ++ q.to_upload
  to_delete_local := p.to_delete_local ++ q.to_delete_local
  to_delete_remote := p.to_delete_remote ++ q.to_delete_remote
  conflicts := p.conflicts ++ q.conflicts
  drive_only_folders := p.drive_only_folders ++ q.drive_only_folders
  local_only_folders := p.local_only_folders ++ q.local_only_folders

theorem planAppend_empty_left (q : SyncPlan) : planAppend emptyPlan q = q := by
  simp [planAppend, emptyPlan]

theorem planAppend_empty_right (p : SyncPlan) : planAppend p emptyPlan = p := by
  simp [planAppend, emptyPlan]

theorem planAppend_assoc (p q r : SyncPlan) :
    planAppend (planAppend p q) r = planAppend p (planAppend q r) := by
  simp [planAppend]

theorem subtreePathsList_cons (c : FolderRec) (cs : List FolderRec) :
    subtreePathsList (c :: cs) = folderFootprint c ++ subtreePathsList cs := by
  rw [subtreePathsList, folderFootprint]

theorem subtreePathsList_append :
    ∀ xs ys : List FolderRec,
      subtreePathsList (xs ++ ys) = subtreePathsList xs ++ subtreePathsList ys := by
  intro xs ys
  induction xs with
  | nil => simp [subtreePathsList]
  | cons c cs ih =>
    rw [List.cons_append, subtreePathsList_cons, subtreePathsList_cons, ih,
      List.append_assoc]

theorem perm_shuffle {α : Type} (a b c d e f : List α) :
    List.Perm ((a ++ b) ++ (c ++ d) ++ (e ++ f)) ((a ++ c ++ e) ++ (b ++ d ++ f)) := by
  have h1 : List.Perm (b ++ (c ++ (d ++ (e ++ f)))) (c ++ (e ++ (b ++ (d ++ f)))) := by
    refine (List.perm_append_comm_assoc b c (d ++ (e ++ f))).trans ?_
    refine List.Perm.append_left c ?_
    refine (List.Perm.append_left b (List.perm_append_comm_assoc d e f)).trans ?_
    exact List.perm_append_comm_assoc b e (d ++ f)
  have h2 : (a ++ b) ++ (c ++ d) ++ (e ++ f) = a ++ (b ++ (c ++ (d ++ (e ++ f)))) := by
    simp [List.append_assoc]
  have h3 : (a ++ c ++ e) ++ (b ++ d ++ f) = a ++ (c ++ (e ++ (b ++ (d ++ f)))) := by
    simp [List.append_assoc]
  rw [h2, h3]
  exact List.Perm.append_left a h1

theorem driveFootprint_planAppend (p q : SyncPlan) :
    List.Perm (driveFootprint (planAppend p q)) (driveFootprint p ++ driveFootprint q) := by
  unfold driveFootprint planAppend
  simp only [List.map_append, subtreePathsList_append]
  exact perm_shuffle _ _ _ _ _ _

theorem localFootprint_planAppend (p q : SyncPlan) :
    List.Perm (localFootprint (planAppend p q)) (localFootprint p ++ localFootprint q) := by
  unfold localFootprint planAppend
  simp only [List.map_append, subtreePathsList_append]
  exact perm_shuffle _ _ _ _ _ _

theorem mem_subtreePathsList :
    ∀ (cs : List FolderRec) (x : String),
      x ∈ subtreePathsList cs ↔ ∃ c ∈ cs, x ∈ folderFootprint c := by
  intro cs x
  induction cs with
  | nil => simp [subtreePathsList]
  | cons d ds ih =>
    rw [subtreePathsList_cons, List.mem_append, ih]
    constructor
    · rintro (h | ⟨c, hc, hx⟩)
      · exact ⟨d, List.mem_cons_self d ds, h⟩
      · exact ⟨c, List.mem_cons_of_mem d hc, hx⟩
    · rintro ⟨c, hc, hx⟩
      rcases List.mem_cons.mp hc with h | h
      · exact Or.inl (h ▸ hx)
      · exact Or.inr ⟨c, h, hx⟩

theorem nodup_folderFootprint_of_mem :
    ∀ cs : List FolderRec, (subtreePathsList cs).Nodup →
      ∀ c ∈ cs, (folderFootprint c).Nodup := by
  intro cs
  induction cs with
  | nil => intro _ c hc; simp at hc
  | cons d ds ih =>
    intro hN c hc
    rw [subtreePathsList_cons] at hN
    rcases List.mem_cons.mp hc with h | h
    · exact h ▸ (List.nodup_append.mp hN).1
    · exact ih (List.nodup_append.mp hN).2.1 c h

theorem disjoint_folderFootprint_of_ne :
    ∀ cs : List FolderRec, (subtreePathsList cs).Nodup →
      ∀ a ∈ cs, ∀ b ∈ cs, a ≠ b →
        ∀ x ∈ folderFootprint a, x ∉ folderFootprint b := by
  intro cs
  induction cs with
  | nil => intro _ a ha; simp at ha
  | cons d ds ih =>
    intro hN a ha b hb hne x hxa hxb
    rw [subtreePathsList_cons] at hN
    obtain ⟨hd1, hd2, hdisj⟩ := List.nodup_append.mp hN
    rcases List.mem_cons.mp ha with ha' | ha' <;> rcases List.mem_cons.mp hb with hb' | hb'
    · exact hne (ha'.trans hb'.symm)
    · exact hdisj (ha' ▸ hxa)
        ((mem_subtreePathsList ds x).mpr ⟨b, hb', hxb⟩)
    · exact hdisj (hb' ▸ hxb)
        ((mem_subtreePathsList ds x).mpr ⟨a, ha', hxa⟩)
    · exact ih hd2 a ha' b hb' hne x hxa hxb

theorem nodup_subtreePathsList_of_named_sub (cs : List FolderRec)
    (hN : (subtreePathsList cs).Nodup) :
    ∀ L : List FolderRec, (∀ c ∈ L, c ∈ cs) → (L.map FolderRec.name).Nodup →
      (subtreePathsList L).Nodup := by
  intro L
  induction L with
  | nil => intro _ _; simp [subtreePathsList]
  | cons c L ih =>
    intro hmem hnames
    rw [subtreePathsList_cons]
    rw [List.map_cons, List.nodup_cons] at hnames
    refine List.Nodup.append ?_ ?_ ?_
    · exact nodup_folderFootprint_of_mem cs hN c (hmem c (List.mem_cons_self c L))
    · exact ih (fun x hx => hmem x (List.mem_cons_of_mem c hx)) hnames.2
    · intro x hxc hxL
      obtain ⟨c', hc', hx'⟩ := (mem_subtreePathsList L x).mp hxL
      have hne : c ≠ c' := by
        intro h
        exact hnames.1 (h ▸ List.mem_map_of_mem FolderRec.name hc')
      exact disjoint_folderFootprint_of_ne cs hN c (hmem c (List.mem_cons_self c L))
        c' (hmem c' (List.mem_cons_of_mem c hc')) hne x hxc hx'

/-- A name-keyed entry chooser into a fixed file list: every produced record
is a member keyed by its own name.  Distinct keys of a duplicate-free path
list then produce records with distinct paths. -/
def FileEntryChooser (pool : List FileRec) (e : String → Option FileRec) : Prop :=
  ∀ n x, e n = some x → x ∈ pool ∧ x.name = n

theorem paths_filterMap_subset (pool : List FileRec) {e : String → Option FileRec}
    (he : FileEntryChooser pool e) (ns : List String) :
    ∀ x ∈ (ns.filterMap e).map FileRec.full_path, x ∈ pool.map FileRec.full_path := by
  intro x hx
  obtain ⟨y, hy, hyx⟩ := List.mem_map.mp hx
  obtain ⟨m, _, hem⟩ := List.mem_filterMap.mp hy
  exact hyx ▸ List.mem_map_of_mem FileRec.full_path (he m y hem).1

theorem nodup_paths_filterMap (pool : List FileRec)
    (hpool : (pool.map FileRec.full_path).Nodup) {e : String → Option FileRec}
    (he : FileEntryChooser pool e) :
    ∀ ns : List String, ns.Nodup → ((ns.filterMap e).map FileRec.full_path).Nodup := by
  intro ns
  induction ns with
  | nil => intro _; simp
  | cons n ns ih =>
    intro hns
    rw [List.filterMap_cons]
    cases hen : e n with
    | none => exact ih (List.nodup_cons.mp hns).2
    | some x =>
      rw [List.map_cons]
      refine List.nodup_cons.mpr ⟨?_, ih (List.nodup_cons.mp hns).2⟩
      intro hmem
      obtain ⟨y, hy, hyx⟩ := List.mem_map.mp hmem
      obtain ⟨m, hm, hem⟩ := List.mem_filterMap.mp hy
      obtain ⟨hxd, hxn⟩ := he n x hen
      obtain ⟨hyd, hyn⟩ := he m y hem
      have hxy : y = x := List.inj_on_of_nodup_map hpool hyd hxd hyx
      have hnm : n = m := by rw [← hxn, ← hyn, hxy]
      exact (List.nodup_cons.mp hns).1 (hnm ▸ hm)

theorem disjoint_paths_filterMap (pool : List FileRec)
    (hpool : (pool.map FileRec.full_path).Nodup) {e1 e2 : String → Option FileRec}
    (he1 : FileEntryChooser pool e1) (he2 : FileEntryChooser pool e2)
    (hexcl : ∀ n, (e1 n).isSome = true → (e2 n).isSome = true → False)
    (ns1 ns2 : List String) :
    ∀ x ∈ (ns1.filterMap e1).map FileRec.full_path,
      x ∉ (ns2.filterMap e2).map FileRec.full_path := by
  intro x h1 h2
  obtain ⟨a, ha, hax⟩ := List.mem_map.mp h1
  obtain ⟨m, _, he1m⟩ := List.mem_filterMap.mp ha
  obtain ⟨b, hb, hbx⟩ := List.mem_map.mp h2
  obtain ⟨k, _, he2k⟩ := List.mem_filterMap.mp hb
  obtain ⟨had, han⟩ := he1 m a he1m
  obtain ⟨hbd, hbn⟩ := he2 k b he2k
  have hab : a = b := List.inj_on_of_nodup_map hpool had hbd (hax.trans hbx.symm)
  have hmk : m = k := by rw [← han, ← hbn, hab]
  exact hexcl m (he1m ▸ rfl) ((hmk ▸ he2k : e2 m = some b) ▸ rfl)

/-- The record loop 1 of `_compare_files` appends for one key: the Drive file
when the name is absent locally and not a Google document. -/
def downloadOnlyEntry (drive_files local_files : List FileRec) (n : String) :
    Option FileRec :=
  match file_lookup drive_files n, file_lookup local_files n with
  | some f, none => if f.is_google_doc then none else some f
  | _, _ => none

/-- The record loop 2 of `_compare_files` appends for one key. -/
def uploadOnlyEntry (drive_files local_files : List FileRec) (n : String) :
    Option FileRec :=
  match file_lookup local_files n, file_lookup drive_files n with
  | some f, none => some f
  | _, _ => none

/-- The download entry the common-name loop appends for one key. -/
def commonDownloadEntry (conflict_resolution : String)
    (drive_files local_files : List FileRec) (n : String) : Option FileRec :=
  match file_lookup drive_files n, file_lookup local_files n with
  | some df, some lf =>
    if df.is_google_doc then none
    else if are_files_different df lf then
      if df.modifiedTime > lf.modifiedTime then
        if conflict_resolution = "drive" then some df else none
      else none
    else none
  | _, _ => none

/-- The upload entry the common-name loop appends for one key. -/
def commonUploadEntry (conflict_resolution : String)
    (drive_files local_files : List FileRec) (n : String) : Option FileRec :=
  match file_lookup drive_files n, file_lookup local_files n with
  | some df, some lf =>
    if df.is_google_doc then none
    else if are_files_different df lf then
      if df.modifiedTime > lf.modifiedTime then none
      else if conflict_resolution = "local" then some lf else none
    else none
  | _, _ => none

/-- The conflict pair the common-name loop appends for one key. -/
def commonConflictEntry (conflict_resolution : String)
    (drive_files local_files : List FileRec) (n : String) :
    Option (FileRec × FileRec) :=
  match file_lookup drive_files n, file_lookup local_files n with
  | some df, some lf =>
    if df.is_google_doc then none
    else if are_files_different df lf then
      if df.modifiedTime > lf.modifiedTime then
        if conflict_resolution = "drive" then none else some (df, lf)
      else if conflict_resolution = "local" then none else some (df, lf)
    else none
  | _, _ => none

/-- The folder record the drive-only loop of `_compare_folders` appends. -/
def driveOnlyFolderEntry (drive_children local_children : List FolderRec)
    (n : String) : Option FolderRec :=
  match folder_lookup drive_children n, folder_lookup local_children n with
  | some g, none => some g
  | _, _ => none

/-- The folder record the local-only loop of `_compare_folders` appends. -/
def localOnlyFolderEntry (drive_children local_children : List FolderRec)
    (n : String) : Option FolderRec :=
  match folder_lookup local_children n, folder_lookup drive_children n with
  | some g, none => some g
  | _, _ => none

theorem drive_only_file_loop_spec (drive_files local_files : List FileRec) :
    ∀ (ns : List String) (p : SyncPlan),
      drive_only_file_loop drive_files local_files ns p =
        { p with to_download :=
            p.to_download ++ ns.filterMap (downloadOnlyEntry drive_files local_files) } := by
  intro ns
  induction ns with
  | nil => intro p; simp [drive_only_file_loop]
  | cons n ns ih =>
    intro p
    rw [drive_only_file_loop, List.filterMap_cons]
    have hstep : (match file_lookup drive_files n, file_lookup local_files n with
        | some f, none => if f.is_google_doc then p else append_download p f
        | _, _ => p) =
        match downloadOnlyEntry drive_files local_files n with
        | some f => append_download p f
        | none => p := by
      unfold downloadOnlyEntry
      cases file_lookup drive_files n with
      | none => cases file_lookup local_files n <;> simp
      | some f =>
        cases file_lookup local_files n with
        | none => by_cases hdoc : f.is_google_doc = true <;> simp [hdoc]
        | some _ => simp
    rw [hstep]
    cases he : downloadOnlyEntry drive_files local_files n with
    | none => rw [ih]
    | some f => rw [ih]; simp [append_download]

theorem local_only_file_loop_spec (drive_files local_files : List FileRec) :
    ∀ (ns : List String) (p : SyncPlan),
      local_only_file_loop drive_files local_files ns p =
        { p with to_upload :=
            p.to_upload ++ ns.filterMap (uploadOnlyEntry drive_files local_files) } := by
  intro ns
  induction ns with
  | nil => intro p; simp [local_only_file_loop]
  | cons n ns ih =>
    intro p
    rw [local_only_file_loop, List.filterMap_cons]
    have hstep : (match file_lookup local_files n, file_lookup drive_files n with
        | some f, none => append_upload p f
        | _, _ => p) =
        match uploadOnlyEntry drive_files local_files n with
        | some f => append_upload p f
        | none => p := by
      unfold uploadOnlyEntry
      cases file_lookup local_files n <;> cases file_lookup drive_files n <;> simp
    rw [hstep]
    cases he : uploadOnlyEntry drive_files local_files n with
    | none => rw [ih]
    | some f => rw [ih]; simp [append_upload]

theorem drive_only_folder_loop_spec (drive_children local_children : List FolderRec) :
    ∀ (ns : List String) (p : SyncPlan),
      drive_only_folder_loop drive_children local_children ns p =
        { p with drive_only_folders :=
            p.drive_only_folders ++
              ns.filterMap (driveOnlyFolderEntry drive_children local_children) } := by
  intro ns
  induction ns with
  | nil => intro p; simp [drive_only_folder_loop]
  | cons n ns ih =>
    intro p
    rw [drive_only_folder_loop, List.filterMap_cons]
    have hstep : (match folder_lookup drive_children n, folder_lookup local_children n with
        | some g, none => append_drive_only p g
        | _, _ => p) =
        match driveOnlyFolderEntry drive_children local_children n with
        | some g => append_drive_only p g
        | none => p := by
      unfold driveOnlyFolderEntry
      cases folder_lookup drive_children n <;> cases folder_lookup local_children n <;> simp
    rw [hstep]
    cases he : driveOnlyFolderEntry drive_children local_children n with
    | none => rw [ih]
    | some g => rw [ih]; simp [append_drive_only]

theorem local_only_folder_loop_spec (drive_children local_children : List FolderRec) :
    ∀ (ns : List String) (p : SyncPlan),
      local_only_folder_loop drive_children local_children ns p =
        { p with local_only_folders :=
            p.local_only_folders ++
              ns.filterMap (localOnlyFolderEntry drive_children local_children) } := by
  intro ns
  induction ns with
  | nil => intro p; simp [local_only_folder_loop]
  | cons n ns ih =>
    intro p
    rw [local_only_folder_loop, List.filterMap_cons]
    have hstep : (match folder_lookup local_children n, folder_lookup drive_children n with
        | some g, none => append_local_only p g
        | _, _ => p) =
        match localOnlyFolderEntry drive_children local_children n with
        | some g => append_local_only p g
        | none => p := by
      unfold localOnlyFolderEntry
      cases folder_lookup local_children n <;> cases folder_lookup drive_children n <;> simp
    rw [hstep]
    cases he : localOnlyFolderEntry drive_children local_children n with
    | none => rw [ih]
    | some g => rw [ih]; simp [append_local_only]

theorem common_file_loop_spec (conflict_resolution : String)
    (drive_files local_files : List FileRec) :
    ∀ (ns : List String) (p : SyncPlan),
      common_file_loop conflict_resolution drive_files local_files ns p =
        { p with
            to_download := p.to_download ++
              ns.filterMap (commonDownloadEntry conflict_resolution drive_files local_files),
            to_upload := p.to_upload ++
              ns.filterMap (commonUploadEntry conflict_resolution drive_files local_files),
            conflicts := p.conflicts ++
              ns.filterMap (commonConflictEntry conflict_resolution drive_files local_files) } := by
  intro ns
  induction ns with
  | nil => intro p; simp [common_file_loop]
  | cons n ns ih =>
    intro p
    rw [common_file_loop, List.filterMap_cons, List.filterMap_cons, List.filterMap_cons]
    have hstep : (match file_lookup drive_files n, file_lookup local_files n with
        | some df, some lf => common_file_step conflict_resolution df lf p
        | _, _ => p) =
        { p with
            to_download := p.to_download ++
              (commonDownloadEntry conflict_resolution drive_files local_files n).toList,
            to_upload := p.to_upload ++
              (commonUploadEntry conflict_resolution drive_files local_files n).toList,
            conflicts := p.conflicts ++
              (commonConflictEntry conflict_resolution drive_files local_files n).toList } := by
      unfold commonDownloadEntry commonUploadEntry commonConflictEntry
      cases h1 : file_lookup drive_files n with
      | none => cases h2 : file_lookup local_files n <;> simp
      | some df =>
        cases h2 : file_lookup local_files n with
        | none => simp
        | some lf =>
          by_cases hdoc : df.is_google_doc = true
          · simp [common_file_step, hdoc]
          · by_cases hdiff : are_files_different df lf = true
            · by_cases hnew : df.modifiedTime > lf.modifiedTime
              · by_cases hcr : conflict_resolution = "drive" <;>
                  simp [common_file_step, hdoc, hdiff, hnew, hcr,
                    append_download, append_conflict]
              · by_cases hcr : conflict_resolution = "local" <;>
                  simp [common_file_step, hdoc, hdiff, hnew, hcr,
                    append_upload, append_conflict]
            · simp [common_file_step, hdoc, hdiff]
    rw [hstep]
    rw [ih]
    cases hd : commonDownloadEntry conflict_resolution drive_files local_files n <;>
      cases hu : commonUploadEntry conflict_resolution drive_files local_files n <;>
      cases hc : commonConflictEntry conflict_resolution drive_files local_files n <;>
        simp

theorem compare_files_spec (conflict_resolution : String)
    (drive_folder local_folder : FolderRec) (p : SyncPlan) :
    compare_files conflict_resolution drive_folder local_folder p =
      { p with
          to_download := p.to_download ++
            ((drive_folder.files.map FileRec.name).dedup.filterMap
              (downloadOnlyEntry drive_folder.files local_folder.files) ++
            (drive_folder.files.map FileRec.name).dedup.filterMap
              (commonDownloadEntry conflict_resolution drive_folder.files local_folder.files)),
          to_upload := p.to_upload ++
            ((local_folder.files.map FileRec.name).dedup.filterMap
              (uploadOnlyEntry drive_folder.files local_folder.files) ++
            (drive_folder.files.map FileRec.name).dedup.filterMap
              (commonUploadEntry conflict_resolution drive_folder.files local_folder.files)),
          conflicts := p.conflicts ++
            (drive_folder.files.map FileRec.name).dedup.filterMap
              (commonConflictEntry conflict_resolution drive_folder.files local_folder.files) } := by
  rw [compare_files]
  rw [drive_only_file_loop_spec, local_only_file_loop_spec, common_file_loop_spec]
  simp [List.append_assoc]

theorem compare_files_additive (conflict_resolution : String)
    (drive_folder local_folder : FolderRec) (p : SyncPlan) :
    compare_files conflict_resolution drive_folder local_folder p =
      planAppend p (compare_files conflict_resolution drive_folder local_folder emptyPlan) := by
  rw [compare_files_spec, compare_files_spec]
  simp [planAppend, emptyPlan]

theorem drive_only_folder_loop_additive (dcs lcs : List FolderRec) (ns : List String)
    (p : SyncPlan) :
    drive_only_folder_loop dcs lcs ns p =
      planAppend p (drive_only_folder_loop dcs lcs ns emptyPlan) := by
  rw [drive_only_folder_loop_spec, drive_only_folder_loop_spec]
  simp [planAppend, emptyPlan]

theorem local_only_folder_loop_additive (dcs lcs : List FolderRec) (ns : List String)
    (p : SyncPlan) :
    local_only_folder_loop dcs lcs ns p =
      planAppend p (local_only_folder_loop dcs lcs ns emptyPlan) := by
  rw [local_only_folder_loop_spec, local_only_folder_loop_spec]
  simp [planAppend, emptyPlan]

/-- The plan entries `_compare_folders` generates beyond its input plan. -/
def compare_folders_delta (conflict_resolution : String) (df lf : FolderRec) : SyncPlan :=
  compare_folders conflict_resolution df lf emptyPlan

/-- The plan entries the common-children recursion generates beyond its input
plan. -/
def compare_children_delta (conflict_resolution : String)
    (lcs rem : List FolderRec) : SyncPlan :=
  compare_children conflict_resolution lcs rem emptyPlan

theorem planAdd_comp {f g : SyncPlan → SyncPlan}
    (hf : ∀ p, f p = planAppend p (f emptyPlan))
    (hg : ∀ p, g p = planAppend p (g emptyPlan)) :
    ∀ p, g (f p) = planAppend p (g (f emptyPlan)) := by
  intro p
  rw [hf p, hg (planAppend p (f emptyPlan)), planAppend_assoc, ← hg (f emptyPlan)]

theorem compare_folders_unfold (conflict_resolution : String)
    (di dn dp : String) (dfs : List FileRec) (dcs : List FolderRec)
    (lf : FolderRec) (q : SyncPlan) :
    compare_folders conflict_resolution (FolderRec.mk di dn dp dfs dcs) lf q =
      compare_children conflict_resolution lf.children dcs
        (local_only_folder_loop dcs lf.children
          ((lf.children.map FolderRec.name).dedup)
          (drive_only_folder_loop dcs lf.children
            ((dcs.map FolderRec.name).dedup)
            (compare_files conflict_resolution
              (FolderRec.mk di dn dp dfs dcs) lf q))) := by
  rw [compare_folders]

theorem compare_children_unfold (conflict_resolution : String)
    (lcs : List FolderRec) (c : FolderRec) (rest : List FolderRec) (q : SyncPlan) :
    compare_children conflict_resolution lcs (c :: rest) q =
      compare_children conflict_resolution lcs rest
        (if (rest.map FolderRec.name).contains c.name then q
         else
           match folder_lookup lcs c.name with
           | some lc => compare_folders conflict_resolution c lc q
           | none => q) := by
  rw [compare_children]

theorem compare_additive (conflict_resolution : String) : ∀ n : Nat,
    (∀ (df lf : FolderRec) (p : SyncPlan), sizeOf df ≤ n →
      compare_folders conflict_resolution df lf p =
        planAppend p (compare_folders_delta conflict_resolution df lf)) ∧
    (∀ (lcs rem : List FolderRec) (p : SyncPlan), sizeOf rem ≤ n →
      compare_children conflict_resolution lcs rem p =
        planAppend p (compare_children_delta conflict_resolution lcs rem)) := by
  intro n
  induction n using Nat.strong_induction_on with
  | _ n ih =>
    constructor
    · intro df lf p hsz
      match df with
      | .mk di dn dp dfs dcs =>
        have hdcs : sizeOf dcs < n := by
          have := FolderRec.sizeOf_children_lt (FolderRec.mk di dn dp dfs dcs)
          simp only [FolderRec.children] at this
          omega
        have hch : ∀ q : SyncPlan,
            compare_children conflict_resolution lf.children dcs q =
              planAppend q (compare_children conflict_resolution lf.children dcs emptyPlan) :=
          fun q => (ih (sizeOf dcs) hdcs).2 lf.children dcs q le_rfl
        have h1 : ∀ q : SyncPlan,
            compare_files conflict_resolution (FolderRec.mk di dn dp dfs dcs) lf q =
              planAppend q (compare_files conflict_resolution
                (FolderRec.mk di dn dp dfs dcs) lf emptyPlan) :=
          fun q => compare_files_additive conflict_resolution _ lf q
        have h2 : ∀ q : SyncPlan,
            drive_only_folder_loop dcs lf.children ((dcs.map FolderRec.name).dedup) q =
              planAppend q (drive_only_folder_loop dcs lf.children
                ((dcs.map FolderRec.name).dedup) emptyPlan) :=
          fun q => drive_only_folder_loop_additive dcs lf.children _ q
        have h3 : ∀ q : SyncPlan,
            local_only_folder_loop dcs lf.children
                ((lf.children.map FolderRec.name).dedup) q =
              planAppend q (local_only_folder_loop dcs lf.children
                ((lf.children.map FolderRec.name).dedup) emptyPlan) :=
          fun q => local_only_folder_loop_additive dcs lf.children _ q
        have h1234 := planAdd_comp (planAdd_comp (planAdd_comp h1 h2) h3) hch
        rw [compare_folders_unfold conflict_resolution di dn dp dfs dcs lf p,
          compare_folders_delta,
          compare_folders_unfold conflict_resolution di dn dp dfs dcs lf emptyPlan]
        exact h1234 p
    · intro lcs rem p hsz
      match rem with
      | [] =>
        rw [compare_children_delta, compare_children, compare_children,
          planAppend_empty_right]
      | c :: rest =>
        have hc : sizeOf c < n := by
          simp only [List.cons.sizeOf_spec] at hsz
          omega
        have hrest : sizeOf rest < n := by
          simp only [List.cons.sizeOf_spec] at hsz
          omega
        have hstep : ∀ q : SyncPlan,
            (if (rest.map FolderRec.name).contains c.name then q
             else
               match folder_lookup lcs c.name with
               | some lc => compare_folders conflict_resolution c lc q
               | none => q) =
              planAppend q
                ((fun q0 =>
                  if (rest.map FolderRec.name).contains c.name then q0
                  else
                    match folder_lookup lcs c.name with
                    | some lc => compare_folders conflict_resolution c lc q0
                    | none => q0) emptyPlan) := by
          intro q
          by_cases hsh : (rest.map FolderRec.name).contains c.name = true
          · simp only [hsh, if_true]
            exact (planAppend_empty_right q).symm
          · simp only [hsh, Bool.false_eq_true, if_false]
            cases hlk : folder_lookup lcs c.name with
            | none => exact (planAppend_empty_right q).symm
            | some lc => exact (ih (sizeOf c) hc).1 c lc q le_rfl
        have hrec : ∀ q : SyncPlan,
            compare_children conflict_resolution lcs rest q =
              planAppend q (compare_children conflict_resolution lcs rest emptyPlan) :=
          fun q => (ih (sizeOf rest) hrest).2 lcs rest q le_rfl
        have hcomb := planAdd_comp hstep hrec
        rw [compare_children_unfold conflict_resolution lcs c rest p,
          compare_children_delta,
          compare_children_unfold conflict_resolution lcs c rest emptyPlan]
        exact hcomb p

theorem compare_folders_additive (conflict_resolution : String)
    (df lf : FolderRec) (p : SyncPlan) :
    compare_folders conflict_resolution df lf p =
      planAppend p (compare_folders_delta conflict_resolution df lf) :=
  (compare_additive conflict_resolution (sizeOf df)).1 df lf p le_rfl

theorem compare_children_additive (conflict_resolution : String)
    (lcs rem : List FolderRec) (p : SyncPlan) :
    compare_children conflict_resolution lcs rem p =
      planAppend p (compare_children_delta conflict_resolution lcs rem) :=
  (compare_additive conflict_resolution (sizeOf rem)).2 lcs rem p le_rfl

theorem compare_folders_delta_decomp (conflict_resolution : String)
    (di dn dp : String) (dfs : List FileRec) (dcs : List FolderRec)
    (lf : FolderRec) :
    compare_folders_delta conflict_resolution (FolderRec.mk di dn dp dfs dcs) lf =
      planAppend
        (compare_files conflict_resolution (FolderRec.mk di dn dp dfs dcs) lf emptyPlan)
        (planAppend
          (drive_only_folder_loop dcs lf.children
            ((dcs.map FolderRec.name).dedup) emptyPlan)
          (planAppend
            (local_only_folder_loop dcs lf.children
              ((lf.children.map FolderRec.name).dedup) emptyPlan)
            (compare_children_delta conflict_resolution lf.children dcs))) := by
  rw [compare_folders_delta,
    compare_folders_unfold conflict_resolution di dn dp dfs dcs lf emptyPlan]
  rw [compare_children_additive conflict_resolution lf.children dcs]
  rw [local_only_folder_loop_additive dcs lf.children
    ((lf.children.map FolderRec.name).dedup)]
  rw [drive_only_folder_loop_additive dcs lf.children ((dcs.map FolderRec.name).dedup)
    (compare_files conflict_resolution (FolderRec.mk di dn dp dfs dcs) lf emptyPlan)]
  rw [planAppend_assoc, planAppend_assoc]

theorem compare_children_delta_cons (conflict_resolution : String)
    (lcs : List FolderRec) (c : FolderRec) (rest : List FolderRec) :
    compare_children_delta conflict_resolution lcs (c :: rest) =
      planAppend
        (if (rest.map FolderRec.name).contains c.name then emptyPlan
         else
           match folder_lookup lcs c.name with
           | some lc => compare_folders_delta conflict_resolution c lc
           | none => emptyPlan)
        (compare_children_delta conflict_resolution lcs rest) := by
  rw [compare_children_delta,
    compare_children_unfold conflict_resolution lcs c rest emptyPlan]
  by_cases hsh : (rest.map FolderRec.name).contains c.name = true
  · simp only [hsh, if_true]
    rw [compare_children_additive conflict_resolution lcs rest emptyPlan,
      planAppend_empty_left]
  · simp only [hsh, Bool.false_eq_true, if_false]
    cases hlk : folder_lookup lcs c.name with
    | none =>
      rw [compare_children_additive conflict_resolution lcs rest emptyPlan,
        planAppend_empty_left]
    | some lc =>
      rw [compare_children_additive conflict_resolution lcs rest
        (compare_folders conflict_resolution c lc emptyPlan)]
      rfl

/-- The drive element of the conflict pair the common-name loop appends. -/
def conflictFstEntry (conflict_resolution : String)
    (drive_files local_files : List FileRec) (n : String) : Option FileRec :=
  (commonConflictEntry conflict_resolution drive_files local_files n).map Prod.fst

/-- The local element of the conflict pair the common-name loop appends. -/
def conflictSndEntry (conflict_resolution : String)
    (drive_files local_files : List FileRec) (n : String) : Option FileRec :=
  (commonConflictEntry conflict_resolution drive_files local_files n).map Prod.snd

theorem downloadOnlyEntry_chooser (drive_files local_files : List FileRec) :
    FileEntryChooser drive_files (downloadOnlyEntry drive_files local_files) := by
  intro n x h
  unfold downloadOnlyEntry at h
  cases h1 : file_lookup drive_files n with
  | none => rw [h1] at h; cases file_lookup local_files n <;> simp at h
  | some f =>
    cases h2 : file_lookup local_files n with
    | some _ => rw [h1, h2] at h; simp at h
    | none =>
      rw [h1, h2] at h
      dsimp only [] at h
      obtain ⟨hm, hn⟩ := dict_lookup_some FileRec.name n drive_files f h1
      split_ifs at h <;>
        first
        | exact Option.noConfusion h
        | (injection h with h9; subst h9; exact ⟨hm, hn⟩)

theorem commonDownloadEntry_chooser (conflict_resolution : String)
    (drive_files local_files : List FileRec) :
    FileEntryChooser drive_files
      (commonDownloadEntry conflict_resolution drive_files local_files) := by
  intro n x h
  unfold commonDownloadEntry at h
  cases h1 : file_lookup drive_files n with
  | none => rw [h1] at h; cases file_lookup local_files n <;> simp at h
  | some df =>
    cases h2 : file_lookup local_files n with
    | none => rw [h1, h2] at h; simp at h
    | some lf =>
      rw [h1, h2] at h
      dsimp only [] at h
      obtain ⟨hm, hn⟩ := dict_lookup_some FileRec.name n drive_files df h1
      split_ifs at h <;>
        first
        | exact Option.noConfusion h
        | (injection h with h9; subst h9; exact ⟨hm, hn⟩)

theorem conflictFstEntry_chooser (conflict_resolution : String)
    (drive_files local_files : List FileRec) :
    FileEntryChooser drive_files
      (conflictFstEntry conflict_resolution drive_files local_files) := by
  intro n x h
  unfold conflictFstEntry commonConflictEntry at h
  cases h1 : file_lookup drive_files n with
  | none => rw [h1] at h; cases file_lookup local_files n <;> simp at h
  | some df =>
    cases h2 : file_lookup local_files n with
    | none => rw [h1, h2] at h; simp at h
    | some lf =>
      rw [h1, h2] at h
      dsimp only [] at h
      obtain ⟨hm, hn⟩ := dict_lookup_some FileRec.name n drive_files df h1
      split_ifs at h <;>
        first
        | exact Option.noConfusion h
        | (injection h with h9; subst h9; exact ⟨hm, hn⟩)

theorem uploadOnlyEntry_chooser (drive_files local_files : List FileRec) :
    FileEntryChooser local_files (uploadOnlyEntry drive_files local_files) := by
  intro n x h
  unfold uploadOnlyEntry at h
  cases h1 : file_lookup local_files n with
  | none => rw [h1] at h; cases file_lookup drive_files n <;> simp at h
  | some f =>
    cases h2 : file_lookup drive_files n with
    | some _ => rw [h1, h2] at h; simp at h
    | none =>
      rw [h1, h2] at h
      dsimp only [] at h
      obtain ⟨hm, hn⟩ := dict_lookup_some FileRec.name n local_files f h1
      injection h with h9; subst h9; exact ⟨hm, hn⟩

theorem commonUploadEntry_chooser (conflict_resolution : String)
    (drive_files local_files : List FileRec) :
    FileEntryChooser local_files
      (commonUploadEntry conflict_resolution drive_files local_files) := by
  intro n x h
  unfold commonUploadEntry at h
  cases h1 : file_lookup drive_files n with
  | none => rw [h1] at h; cases file_lookup local_files n <;> simp at h
  | some df =>
    cases h2 : file_lookup local_files n with
    | none => rw [h1, h2] at h; simp at h
    | some lf =>
      rw [h1, h2] at h
      dsimp only [] at h
      obtain ⟨hm, hn⟩ := dict_lookup_some FileRec.name n local_files lf h2
      split_ifs at h <;>
        first
        | exact Option.noConfusion h
        | (injection h with h9; subst h9; exact ⟨hm, hn⟩)

theorem conflictSndEntry_chooser (conflict_resolution : String)
    (drive_files local_files : List FileRec) :
    FileEntryChooser local_files
      (conflictSndEntry conflict_resolution drive_files local_files) := by
  intro n x h
  unfold conflictSndEntry commonConflictEntry at h
  cases h1 : file_lookup drive_files n with
  | none => rw [h1] at h; cases file_lookup local_files n <;> simp at h
  | some df =>
    cases h2 : file_lookup local_files n with
    | none => rw [h1, h2] at h; simp at h
    | some lf =>
      rw [h1, h2] at h
      dsimp only [] at h
      obtain ⟨hm, hn⟩ := dict_lookup_some FileRec.name n local_files lf h2
      split_ifs at h <;>
        first
        | exact Option.noConfusion h
        | (injection h with h9; subst h9; exact ⟨hm, hn⟩)

theorem excl_downloadOnly_commonDownload (conflict_resolution : String)
    (drive_files local_files : List FileRec) (n : String) :
    (downloadOnlyEntry drive_files local_files n).isSome = true →
    (commonDownloadEntry conflict_resolution drive_files local_files n).isSome = true →
    False := by
  intro ha hb
  unfold downloadOnlyEntry at ha
  unfold commonDownloadEntry at hb
  cases h1 : file_lookup drive_files n <;> rw [h1] at ha hb <;>
    cases h2 : file_lookup local_files n <;> rw [h2] at ha hb <;> simp_all

theorem excl_downloadOnly_conflictFst (conflict_resolution : String)
    (drive_files local_files : List FileRec) (n : String) :
    (downloadOnlyEntry drive_files local_files n).isSome = true →
    (conflictFstEntry conflict_resolution drive_files local_files n).isSome = true →
    False := by
  intro ha hb
  unfold downloadOnlyEntry at ha
  unfold conflictFstEntry commonConflictEntry at hb
  cases h1 : file_lookup drive_files n <;> rw [h1] at ha hb <;>
    cases h2 : file_lookup local_files n <;> rw [h2] at ha hb <;> simp_all

theorem excl_commonDownload_conflictFst (conflict_resolution : String)
    (drive_files local_files : List FileRec) (n : String) :
    (commonDownloadEntry conflict_resolution drive_files local_files n).isSome = true →
    (conflictFstEntry conflict_resolution drive_files local_files n).isSome = true →
    False := by
  intro ha hb
  unfold commonDownloadEntry at ha
  unfold conflictFstEntry commonConflictEntry at hb
  cases h1 : file_lookup drive_files n <;> rw [h1] at ha hb <;>
    cases h2 : file_lookup local_files n <;> rw [h2] at ha hb <;>
    [skip; skip; skip; (dsimp only [] at ha hb; split_ifs at ha hb)] <;> simp_all

theorem excl_uploadOnly_commonUpload (conflict_resolution : String)
    (drive_files local_files : List FileRec) (n : String) :
    (uploadOnlyEntry drive_files local_files n).isSome = true →
    (commonUploadEntry conflict_resolution drive_files local_files n).isSome = true →
    False := by
  intro ha hb
  unfold uploadOnlyEntry at ha
  unfold commonUploadEntry at hb
  cases h1 : file_lookup drive_files n <;> rw [h1] at ha hb <;>
    cases h2 : file_lookup local_files n <;> rw [h2] at ha hb <;> simp_all

theorem excl_uploadOnly_conflictSnd (conflict_resolution : String)
    (drive_files local_files : List FileRec) (n : String) :
    (uploadOnlyEntry drive_files local_files n).isSome = true →
    (conflictSndEntry conflict_resolution drive_files local_files n).isSome = true →
    False := by
  intro ha hb
  unfold uploadOnlyEntry at ha
  unfold conflictSndEntry commonConflictEntry at hb
  cases h1 : file_lookup drive_files n <;> rw [h1] at ha hb <;>
    cases h2 : file_lookup local_files n <;> rw [h2] at ha hb <;> simp_all

theorem excl_commonUpload_conflictSnd (conflict_resolution : String)
    (drive_files local_files : List FileRec) (n : String) :
    (commonUploadEntry conflict_resolution drive_files local_files n).isSome = true →
    (conflictSndEntry conflict_resolution drive_files local_files n).isSome = true →
    False := by
  intro ha hb
  unfold commonUploadEntry at ha
  unfold conflictSndEntry commonConflictEntry at hb
  cases h1 : file_lookup drive_files n <;> rw [h1] at ha hb <;>
    cases h2 : file_lookup local_files n <;> rw [h2] at ha hb <;>
    [skip; skip; skip; (dsimp only [] at ha hb; split_ifs at ha hb)] <;> simp_all

theorem subtreePathsList_nil : subtreePathsList [] = [] := by
  rw [subtreePathsList]

theorem conflict_fst_paths (conflict_resolution : String)
    (drive_files local_files : List FileRec) (ns : List String) :
    (ns.filterMap (commonConflictEntry conflict_resolution drive_files local_files)).map
        (fun pr => pr.1.full_path) =
      (ns.filterMap (conflictFstEntry conflict_resolution drive_files local_files)).map
        FileRec.full_path := by
  simp only [List.map_filterMap, conflictFstEntry, Option.map_map]
  rfl

theorem conflict_snd_paths (conflict_resolution : String)
    (drive_files local_files : List FileRec) (ns : List String) :
    (ns.filterMap (commonConflictEntry conflict_resolution drive_files local_files)).map
        (fun pr => pr.2.full_path) =
      (ns.filterMap (conflictSndEntry conflict_resolution drive_files local_files)).map
        FileRec.full_path := by
  simp only [List.map_filterMap, conflictSndEntry, Option.map_map]
  rfl

theorem compare_files_driveFootprint_eq (conflict_resolution : String)
    (drive_folder local_folder : FolderRec) :
    driveFootprint (compare_files conflict_resolution drive_folder local_folder emptyPlan) =
      ((drive_folder.files.map FileRec.name).dedup.filterMap
          (downloadOnlyEntry drive_folder.files local_folder.files)).map FileRec.full_path ++
        ((drive_folder.files.map FileRec.name).dedup.filterMap
          (commonDownloadEntry conflict_resolution drive_folder.files
            local_folder.files)).map FileRec.full_path ++
        ((drive_folder.files.map FileRec.name).dedup.filterMap
          (conflictFstEntry conflict_resolution drive_folder.files
            local_folder.files)).map FileRec.full_path := by
  rw [compare_files_spec]
  unfold driveFootprint
  simp only [emptyPlan, List.nil_append, List.map_append, subtreePathsList_nil,
    List.append_nil, conflict_fst_paths, List.append_assoc]

theorem compare_files_localFootprint_eq (conflict_resolution : String)
    (drive_folder local_folder : FolderRec) :
    localFootprint (compare_files conflict_resolution drive_folder local_folder emptyPlan) =
      ((local_folder.files.map FileRec.name).dedup.filterMap
          (uploadOnlyEntry drive_folder.files local_folder.files)).map FileRec.full_path ++
        ((drive_folder.files.map FileRec.name).dedup.filterMap
          (commonUploadEntry conflict_resolution drive_folder.files
            local_folder.files)).map FileRec.full_path ++
        ((drive_folder.files.map FileRec.name).dedup.filterMap
          (conflictSndEntry conflict_resolution drive_folder.files
            local_folder.files)).map FileRec.full_path := by
  rw [compare_files_spec]
  unfold localFootprint
  simp only [emptyPlan, List.nil_append, List.map_append, subtreePathsList_nil,
    List.append_nil, conflict_snd_paths, List.append_assoc]

theorem compare_files_driveFootprint_subset (conflict_resolution : String)
    (drive_folder local_folder : FolderRec) :
    ∀ x ∈ driveFootprint
        (compare_files conflict_resolution drive_folder local_folder emptyPlan),
      x ∈ drive_folder.files.map FileRec.full_path := by
  intro x hx
  rw [compare_files_driveFootprint_eq] at hx
  rcases List.mem_append.mp hx with h | h
  · rcases List.mem_append.mp h with h | h
    · exact paths_filterMap_subset drive_folder.files
        (downloadOnlyEntry_chooser drive_folder.files local_folder.files) _ x h
    · exact paths_filterMap_subset drive_folder.files
        (commonDownloadEntry_chooser conflict_resolution drive_folder.files
          local_folder.files) _ x h
  · exact paths_filterMap_subset drive_folder.files
      (conflictFstEntry_chooser conflict_resolution drive_folder.files
        local_folder.files) _ x h

theorem compare_files_localFootprint_subset (conflict_resolution : String)
    (drive_folder local_folder : FolderRec) :
    ∀ x ∈ localFootprint
        (compare_files conflict_resolution drive_folder local_folder emptyPlan),
      x ∈ local_folder.files.map FileRec.full_path := by
  intro x hx
  rw [compare_files_localFootprint_eq] at hx
  rcases List.mem_append.mp hx with h | h
  · rcases List.mem_append.mp h with h | h
    · exact paths_filterMap_subset local_folder.files
        (uploadOnlyEntry_chooser drive_folder.files local_folder.files) _ x h
    · exact paths_filterMap_subset local_folder.files
        (commonUploadEntry_chooser conflict_resolution drive_folder.files
          local_folder.files) _ x h
  · exact paths_filterMap_subset local_folder.files
      (conflictSndEntry_chooser conflict_resolution drive_folder.files
        local_folder.files) _ x h

theorem compare_files_driveFootprint_nodup (conflict_resolution : String)
    (drive_folder local_folder : FolderRec)
    (hpool : (drive_folder.files.map FileRec.full_path).Nodup) :
    (driveFootprint
        (compare_files conflict_resolution drive_folder local_folder emptyPlan)).Nodup := by
  rw [compare_files_driveFootprint_eq]
  have hkeys : ((drive_folder.files.map FileRec.name).dedup).Nodup := List.nodup_dedup _
  have h1 := nodup_paths_filterMap drive_folder.files hpool
    (downloadOnlyEntry_chooser drive_folder.files local_folder.files) _ hkeys
  have h2 := nodup_paths_filterMap drive_folder.files hpool
    (commonDownloadEntry_chooser conflict_resolution drive_folder.files local_folder.files)
    _ hkeys
  have h3 := nodup_paths_filterMap drive_folder.files hpool
    (conflictFstEntry_chooser conflict_resolution drive_folder.files local_folder.files)
    _ hkeys
  refine List.Nodup.append (List.Nodup.append h1 h2 ?_) h3 ?_
  · exact disjoint_paths_filterMap drive_folder.files hpool
      (downloadOnlyEntry_chooser drive_folder.files local_folder.files)
      (commonDownloadEntry_chooser conflict_resolution drive_folder.files local_folder.files)
      (excl_downloadOnly_commonDownload conflict_resolution drive_folder.files
        local_folder.files) _ _
  · intro x hx
    rcases List.mem_append.mp hx with h | h
    · exact disjoint_paths_filterMap drive_folder.files hpool
        (downloadOnlyEntry_chooser drive_folder.files local_folder.files)
        (conflictFstEntry_chooser conflict_resolution drive_folder.files local_folder.files)
        (excl_downloadOnly_conflictFst conflict_resolution drive_folder.files
          local_folder.files) _ _ x h
    · exact disjoint_paths_filterMap drive_folder.files hpool
        (commonDownloadEntry_chooser conflict_resolution drive_folder.files
          local_folder.files)
        (conflictFstEntry_chooser conflict_resolution drive_folder.files local_folder.files)
        (excl_commonDownload_conflictFst conflict_resolution drive_folder.files
          local_folder.files) _ _ x h

theorem compare_files_localFootprint_nodup (conflict_resolution : String)
    (drive_folder local_folder : FolderRec)
    (hpool : (local_folder.files.map FileRec.full_path).Nodup) :
    (localFootprint
        (compare_files conflict_resolution drive_folder local_folder emptyPlan)).Nodup := by
  rw [compare_files_localFootprint_eq]
  have hkeysD : ((drive_folder.files.map FileRec.name).dedup).Nodup := List.nodup_dedup _
  have hkeysL : ((local_folder.files.map FileRec.name).dedup).Nodup := List.nodup_dedup _
  have h1 := nodup_paths_filterMap local_folder.files hpool
    (uploadOnlyEntry_chooser drive_folder.files local_folder.files) _ hkeysL
  have h2 := nodup_paths_filterMap local_folder.files hpool
    (commonUploadEntry_chooser conflict_resolution drive_folder.files local_folder.files)
    _ hkeysD
  have h3 := nodup_paths_filterMap local_folder.files hpool
    (conflictSndEntry_chooser conflict_resolution drive_folder.files local_folder.files)
    _ hkeysD
  refine List.Nodup.append (List.Nodup.append h1 h2 ?_) h3 ?_
  · exact disjoint_paths_filterMap local_folder.files hpool
      (uploadOnlyEntry_chooser drive_folder.files local_folder.files)
      (commonUploadEntry_chooser conflict_resolution drive_folder.files local_folder.files)
      (excl_uploadOnly_commonUpload conflict_resolution drive_folder.files
        local_folder.files) _ _
  · intro x hx
    rcases List.mem_append.mp hx with h | h
    · exact disjoint_paths_filterMap local_folder.files hpool
        (uploadOnlyEntry_chooser drive_folder.files local_folder.files)
        (conflictSndEntry_chooser conflict_resolution drive_folder.files local_folder.files)
        (excl_uploadOnly_conflictSnd conflict_resolution drive_folder.files
          local_folder.files) _ _ x h
    · exact disjoint_paths_filterMap local_folder.files hpool
        (commonUploadEntry_chooser conflict_resolution drive_folder.files
          local_folder.files)
        (conflictSndEntry_chooser conflict_resolution drive_folder.files local_folder.files)
        (excl_commonUpload_conflictSnd conflict_resolution drive_folder.files
          local_folder.files) _ _ x h

theorem driveOnlyFolderEntry_some (drive_children local_children : List FolderRec)
    (n : String) (g : FolderRec) :
    driveOnlyFolderEntry drive_children local_children n = some g →
      g ∈ drive_children ∧ g.name = n ∧ folder_lookup local_children n = none := by
  intro h
  unfold driveOnlyFolderEntry at h
  cases h1 : folder_lookup drive_children n with
  | none => rw [h1] at h; cases folder_lookup local_children n <;> simp at h
  | some a =>
    cases h2 : folder_lookup local_children n with
    | some _ => rw [h1, h2] at h; simp at h
    | none =>
      rw [h1, h2] at h
      dsimp only [] at h
      injection h with h9
      subst h9
      obtain ⟨hm, hn⟩ := dict_lookup_some FolderRec.name n drive_children a h1
      exact ⟨hm, hn, rfl⟩

theorem localOnlyFolderEntry_some (drive_children local_children : List FolderRec)
    (n : String) (g : FolderRec) :
    localOnlyFolderEntry drive_children local_children n = some g →
      g ∈ local_children ∧ g.name = n ∧ folder_lookup drive_children n = none := by
  intro h
  unfold localOnlyFolderEntry at h
  cases h1 : folder_lookup local_children n with
  | none => rw [h1] at h; cases folder_lookup drive_children n <;> simp at h
  | some a =>
    cases h2 : folder_lookup drive_children n with
    | some _ => rw [h1, h2] at h; simp at h
    | none =>
      rw [h1, h2] at h
      dsimp only [] at h
      injection h with h9
      subst h9
      obtain ⟨hm, hn⟩ := dict_lookup_some FolderRec.name n local_children a h1
      exact ⟨hm, hn, rfl⟩

theorem nodup_filterMap_folder_names {e : String → Option FolderRec}
    (he : ∀ n g, e n = some g → g.name = n) :
    ∀ ns : List String, ns.Nodup → ((ns.filterMap e).map FolderRec.name).Nodup := by
  intro ns
  induction ns with
  | nil => intro _; simp
  | cons n ns ih =>
    intro hns
    rw [List.filterMap_cons]
    cases hen : e n with
    | none => exact ih (List.nodup_cons.mp hns).2
    | some g =>
      rw [List.map_cons, List.nodup_cons]
      refine ⟨?_, ih (List.nodup_cons.mp hns).2⟩
      intro hmem
      obtain ⟨y, hy, hyn⟩ := List.mem_map.mp hmem
      obtain ⟨m, hm, hem⟩ := List.mem_filterMap.mp hy
      have hnm : n = m := by rw [← he n g hen, ← hyn, he m y hem]
      exact (List.nodup_cons.mp hns).1 (hnm ▸ hm)

theorem drive_only_loop_delta_driveFootprint (drive_children local_children : List FolderRec)
    (ns : List String) :
    driveFootprint (drive_only_folder_loop drive_children local_children ns emptyPlan) =
      subtreePathsList (ns.filterMap (driveOnlyFolderEntry drive_children local_children)) := by
  rw [drive_only_folder_loop_spec]
  unfold driveFootprint
  simp [emptyPlan]

theorem drive_only_loop_delta_localFootprint (drive_children local_children : List FolderRec)
    (ns : List String) :
    localFootprint (drive_only_folder_loop drive_children local_children ns emptyPlan) = [] := by
  rw [drive_only_folder_loop_spec]
  unfold localFootprint
  simp [emptyPlan, subtreePathsList_nil]

theorem local_only_loop_delta_localFootprint (drive_children local_children : List FolderRec)
    (ns : List String) :
    localFootprint (local_only_folder_loop drive_children local_children ns emptyPlan) =
      subtreePathsList (ns.filterMap (localOnlyFolderEntry drive_children local_children)) := by
  rw [local_only_folder_loop_spec]
  unfold localFootprint
  simp [emptyPlan]

theorem local_only_loop_delta_driveFootprint (drive_children local_children : List FolderRec)
    (ns : List String) :
    driveFootprint (local_only_folder_loop drive_children local_children ns emptyPlan) = [] := by
  rw [local_only_folder_loop_spec]
  unfold driveFootprint
  simp [emptyPlan, subtreePathsList_nil]

theorem subtreePaths_eq (f : FolderRec) :
    subtreePaths f = f.files.map FileRec.full_path ++ subtreePathsList f.children := by
  cases f with
  | mk i n p fs cs =>
    rw [subtreePaths]
    rfl

theorem driveFootprint_empty : driveFootprint emptyPlan = [] := by
  unfold driveFootprint
  simp [emptyPlan, subtreePathsList_nil]

theorem localFootprint_empty : localFootprint emptyPlan = [] := by
  unfold localFootprint
  simp [emptyPlan, subtreePathsList_nil]

theorem drive_only_captured_nodup (drive_children local_children : List FolderRec)
    (hN : (subtreePathsList drive_children).Nodup) (ns : List String) (hns : ns.Nodup) :
    (subtreePathsList
      (ns.filterMap (driveOnlyFolderEntry drive_children local_children))).Nodup := by
  refine nodup_subtreePathsList_of_named_sub drive_children hN _ ?_ ?_
  · intro c hc
    obtain ⟨m, _, hem⟩ := List.mem_filterMap.mp hc
    exact (driveOnlyFolderEntry_some drive_children local_children m c hem).1
  · exact nodup_filterMap_folder_names
      (fun n g h => (driveOnlyFolderEntry_some drive_children local_children n g h).2.1)
      ns hns

theorem local_only_captured_nodup (drive_children local_children : List FolderRec)
    (hN : (subtreePathsList local_children).Nodup) (ns : List String) (hns : ns.Nodup) :
    (subtreePathsList
      (ns.filterMap (localOnlyFolderEntry drive_children local_children))).Nodup := by
  refine nodup_subtreePathsList_of_named_sub local_children hN _ ?_ ?_
  · intro c hc
    obtain ⟨m, _, hem⟩ := List.mem_filterMap.mp hc
    exact (localOnlyFolderEntry_some drive_children local_children m c hem).1
  · exact nodup_filterMap_folder_names
      (fun n g h => (localOnlyFolderEntry_some drive_children local_children n g h).2.1)
      ns hns

theorem mem_captured_drive (drive_children local_children : List FolderRec)
    (ns : List String) (x : String) :
    x ∈ subtreePathsList
        (ns.filterMap (driveOnlyFolderEntry drive_children local_children)) →
      ∃ g, g ∈ drive_children ∧ folder_lookup local_children g.name = none ∧
        x ∈ folderFootprint g := by
  intro hx
  obtain ⟨g, hgmem, hxg⟩ := (mem_subtreePathsList _ x).mp hx
  obtain ⟨m, _, hem⟩ := List.mem_filterMap.mp hgmem
  obtain ⟨h1, h2, h3⟩ := driveOnlyFolderEntry_some drive_children local_children m g hem
  refine ⟨g, h1, ?_, hxg⟩
  rw [h2]
  exact h3

theorem mem_captured_local (drive_children local_children : List FolderRec)
    (ns : List String) (x : String) :
    x ∈ subtreePathsList
        (ns.filterMap (localOnlyFolderEntry drive_children local_children)) →
      ∃ g, g ∈ local_children ∧ folder_lookup drive_children g.name = none ∧
        x ∈ folderFootprint g := by
  intro hx
  obtain ⟨g, hgmem, hxg⟩ := (mem_subtreePathsList _ x).mp hx
  obtain ⟨m, _, hem⟩ := List.mem_filterMap.mp hgmem
  obtain ⟨h1, h2, h3⟩ := localOnlyFolderEntry_some drive_children local_children m g hem
  refine ⟨g, h1, ?_, hxg⟩
  rw [h2]
  exact h3

/-- Every drive path referenced by the plan of one folder pair lies in the
drive folder's subtree. -/
def FoldersSupportDrive (conflict_resolution : String) (df lf : FolderRec) : Prop :=
  ∀ x ∈ driveFootprint (compare_folders_delta conflict_resolution df lf),
    x ∈ subtreePaths df

/-- Every local path referenced by the plan of one folder pair lies in the
local folder's subtree. -/
def FoldersSupportLocal (conflict_resolution : String) (df lf : FolderRec) : Prop :=
  ∀ x ∈ localFootprint (compare_folders_delta conflict_resolution df lf),
    x ∈ subtreePaths lf

/-- If the drive subtree has no duplicate paths, the plan of one folder pair
references each drive path at most once. -/
def FoldersNodupDrive (conflict_resolution : String) (df lf : FolderRec) : Prop :=
  (subtreePaths df).Nodup →
    (driveFootprint (compare_folders_delta conflict_resolution df lf)).Nodup

/-- If the local subtree has no duplicate paths, the plan of one folder pair
references each local path at most once. -/
def FoldersNodupLocal (conflict_resolution : String) (df lf : FolderRec) : Prop :=
  (subtreePaths lf).Nodup →
    (localFootprint (compare_folders_delta conflict_resolution df lf)).Nodup

/-- Drive paths referenced by the common-children recursion come from a
remaining drive child that has a same-named local child. -/
def ChildrenSupportDrive (conflict_resolution : String)
    (lcs rem : List FolderRec) : Prop :=
  ∀ x ∈ driveFootprint (compare_children_delta conflict_resolution lcs rem),
    ∃ c ∈ rem, (folder_lookup lcs c.name).isSome = true ∧ x ∈ subtreePaths c

/-- Local paths referenced by the common-children recursion come from the
local child looked up for a remaining drive child. -/
def ChildrenSupportLocal (conflict_resolution : String)
    (lcs rem : List FolderRec) : Prop :=
  ∀ x ∈ localFootprint (compare_children_delta conflict_resolution lcs rem),
    ∃ c ∈ rem, ∃ lc, folder_lookup lcs c.name = some lc ∧ x ∈ subtreePaths lc

/-- The common-children recursion references each drive path at most once
when the remaining drive children's subtrees have no duplicate paths. -/
def ChildrenNodupDrive (conflict_resolution : String)
    (lcs rem : List FolderRec) : Prop :=
  (subtreePathsList rem).Nodup →
    (driveFootprint (compare_children_delta conflict_resolution lcs rem)).Nodup

/-- The common-children recursion references each local path at most once
when the local children's subtrees have no duplicate paths. -/
def ChildrenNodupLocal (conflict_resolution : String)
    (lcs rem : List FolderRec) : Prop :=
  (subtreePathsList lcs).Nodup →
    (localFootprint (compare_children_delta conflict_resolution lcs rem)).Nodup

theorem children_nil (conflict_resolution : String) (lcs : List FolderRec) :
    ChildrenSupportDrive conflict_resolution lcs [] ∧
      ChildrenSupportLocal conflict_resolution lcs [] ∧
        ChildrenNodupDrive conflict_resolution lcs [] ∧
          ChildrenNodupLocal conflict_resolution lcs [] := by
  have h : compare_children_delta conflict_resolution lcs [] = emptyPlan := by
    rw [compare_children_delta, compare_children]
  refine ⟨?_, ?_, ?_, ?_⟩
  · intro x hx
    rw [h, driveFootprint_empty] at hx
    exact absurd hx (List.not_mem_nil x)
  · intro x hx
    rw [h, localFootprint_empty] at hx
    exact absurd hx (List.not_mem_nil x)
  · intro _
    rw [h, driveFootprint_empty]
    exact List.nodup_nil
  · intro _
    rw [h, localFootprint_empty]
    exact List.nodup_nil

theorem folders_step (conflict_resolution : String)
    (di dn dp : String) (dfs : List FileRec) (dcs : List FolderRec) (lf : FolderRec)
    (ih1 : ChildrenSupportDrive conflict_resolution lf.children dcs)
    (ih2 : ChildrenSupportLocal conflict_resolution lf.children dcs)
    (ih3 : ChildrenNodupDrive conflict_resolution lf.children dcs)
    (ih4 : ChildrenNodupLocal conflict_resolution lf.children dcs) :
    FoldersSupportDrive conflict_resolution (FolderRec.mk di dn dp dfs dcs) lf ∧
      FoldersSupportLocal conflict_resolution (FolderRec.mk di dn dp dfs dcs) lf ∧
        FoldersNodupDrive conflict_resolution (FolderRec.mk di dn dp dfs dcs) lf ∧
          FoldersNodupLocal conflict_resolution (FolderRec.mk di dn dp dfs dcs) lf := by
  have hdec := compare_folders_delta_decomp conflict_resolution di dn dp dfs dcs lf
  have hpermD : List.Perm
      (driveFootprint (compare_folders_delta conflict_resolution
        (FolderRec.mk di dn dp dfs dcs) lf))
      (driveFootprint (compare_files conflict_resolution
          (FolderRec.mk di dn dp dfs dcs) lf emptyPlan) ++
        (subtreePathsList (((dcs.map FolderRec.name).dedup).filterMap
            (driveOnlyFolderEntry dcs lf.children)) ++
          driveFootprint (compare_children_delta conflict_resolution
            lf.children dcs))) := by
    rw [hdec]
    refine (driveFootprint_planAppend _ _).trans (List.Perm.append_left _ ?_)
    refine (driveFootprint_planAppend _ _).trans ?_
    rw [drive_only_loop_delta_driveFootprint]
    refine List.Perm.append_left _ ?_
    refine (driveFootprint_planAppend _ _).trans ?_
    rw [local_only_loop_delta_driveFootprint, List.nil_append]
  have hpermL : List.Perm
      (localFootprint (compare_folders_delta conflict_resolution
        (FolderRec.mk di dn dp dfs dcs) lf))
      (localFootprint (compare_files conflict_resolution
          (FolderRec.mk di dn dp dfs dcs) lf emptyPlan) ++
        (subtreePathsList (((lf.children.map FolderRec.name).dedup).filterMap
            (localOnlyFolderEntry dcs lf.children)) ++
          localFootprint (compare_children_delta conflict_resolution
            lf.children dcs))) := by
    rw [hdec]
    refine (localFootprint_planAppend _ _).trans (List.Perm.append_left _ ?_)
    refine (localFootprint_planAppend _ _).trans ?_
    rw [drive_only_loop_delta_localFootprint, List.nil_append]
    refine (localFootprint_planAppend _ _).trans ?_
    rw [local_only_loop_delta_localFootprint]
  refine ⟨?_, ?_, ?_, ?_⟩
  · intro x hx
    rw [hpermD.mem_iff] at hx
    rw [subtreePaths_eq]
    rcases List.mem_append.mp hx with h | h
    · exact List.mem_append_left _
        (compare_files_driveFootprint_subset conflict_resolution _ lf x h)
    · rcases List.mem_append.mp h with h | h
      · obtain ⟨g, hg, _, hxg⟩ := mem_captured_drive dcs lf.children _ x h
        exact List.mem_append_right _ ((mem_subtreePathsList _ x).mpr ⟨g, hg, hxg⟩)
      · obtain ⟨c, hc, _, hxc⟩ := ih1 x h
        exact List.mem_append_right _ ((mem_subtreePathsList _ x).mpr
          ⟨c, hc, List.mem_cons_of_mem _ hxc⟩)
  · intro x hx
    rw [hpermL.mem_iff] at hx
    rw [subtreePaths_eq]
    rcases List.mem_append.mp hx with h | h
    · exact List.mem_append_left _
        (compare_files_localFootprint_subset conflict_resolution _ lf x h)
    · rcases List.mem_append.mp h with h | h
      · obtain ⟨g, hg, _, hxg⟩ := mem_captured_local dcs lf.children _ x h
        exact List.mem_append_right _ ((mem_subtreePathsList _ x).mpr ⟨g, hg, hxg⟩)
      · obtain ⟨c, hc, lc, hlk, hxc⟩ := ih2 x h
        exact List.mem_append_right _ ((mem_subtreePathsList _ x).mpr
          ⟨lc, (dict_lookup_some FolderRec.name c.name lf.children lc hlk).1,
            List.mem_cons_of_mem _ hxc⟩)
  · intro hN
    rw [subtreePaths_eq] at hN
    obtain ⟨hA, hB, hAB⟩ := List.nodup_append.mp hN
    refine hpermD.nodup_iff.mpr ?_
    refine List.Nodup.append ?_ (List.Nodup.append ?_ ?_ ?_) ?_
    · exact compare_files_driveFootprint_nodup conflict_resolution _ lf hA
    · exact drive_only_captured_nodup dcs lf.children hB _ (List.nodup_dedup _)
    · exact ih3 hB
    · intro x hx hx2
      obtain ⟨g, hg, hgnone, hxg⟩ := mem_captured_drive dcs lf.children _ x hx
      obtain ⟨c, hc, hcsome, hxc⟩ := ih1 x hx2
      have hne : g ≠ c := by
        intro he
        rw [he] at hgnone
        rw [hgnone] at hcsome
        simp at hcsome
      exact disjoint_folderFootprint_of_ne dcs hB g hg c hc hne x hxg
        (List.mem_cons_of_mem _ hxc)
    · intro x hx hx2
      have hxf := compare_files_driveFootprint_subset conflict_resolution _ lf x hx
      have hxr : x ∈ subtreePathsList dcs := by
        rcases List.mem_append.mp hx2 with h | h
        · obtain ⟨g, hg, _, hxg⟩ := mem_captured_drive dcs lf.children _ x h
          exact (mem_subtreePathsList _ x).mpr ⟨g, hg, hxg⟩
        · obtain ⟨c, hc, _, hxc⟩ := ih1 x h
          exact (mem_subtreePathsList _ x).mpr ⟨c, hc, List.mem_cons_of_mem _ hxc⟩
      exact hAB hxf hxr
  · intro hN
    rw [subtreePaths_eq] at hN
    obtain ⟨hA, hB, hAB⟩ := List.nodup_append.mp hN
    refine hpermL.nodup_iff.mpr ?_
    refine List.Nodup.append ?_ (List.Nodup.append ?_ ?_ ?_) ?_
    · exact compare_files_localFootprint_nodup conflict_resolution _ lf hA
    · exact local_only_captured_nodup dcs lf.children hB _ (List.nodup_dedup _)
    · exact ih4 hB
    · intro x hx hx2
      obtain ⟨g, hg, hgnone, hxg⟩ := mem_captured_local dcs lf.children _ x hx
      obtain ⟨c, hc, lc, hlk, hxc⟩ := ih2 x hx2
      obtain ⟨hlcmem, hlcname⟩ := dict_lookup_some FolderRec.name c.name lf.children lc hlk
      have hcsome : (folder_lookup dcs c.name).isSome = true :=
        (dict_lookup_isSome FolderRec.name c.name dcs).mpr
          (List.mem_map_of_mem FolderRec.name hc)
      have hne : g ≠ lc := by
        intro he
        rw [he, hlcname] at hgnone
        rw [hgnone] at hcsome
        simp at hcsome
      exact disjoint_folderFootprint_of_ne lf.children hB g hg lc hlcmem hne x hxg
        (List.mem_cons_of_mem _ hxc)
    · intro x hx hx2
      have hxf := compare_files_localFootprint_subset conflict_resolution _ lf x hx
      have hxr : x ∈ subtreePathsList lf.children := by
        rcases List.mem_append.mp hx2 with h | h
        · obtain ⟨g, hg, _, hxg⟩ := mem_captured_local dcs lf.children _ x h
          exact (mem_subtreePathsList _ x).mpr ⟨g, hg, hxg⟩
        · obtain ⟨c, hc, lc, hlk, hxc⟩ := ih2 x h
          exact (mem_subtreePathsList _ x).mpr
            ⟨lc, (dict_lookup_some FolderRec.name c.name lf.children lc hlk).1,
              List.mem_cons_of_mem _ hxc⟩
      exact hAB hxf hxr

theorem children_step (conflict_resolution : String) (lcs : List FolderRec)
    (c : FolderRec) (rest : List FolderRec)
    (ihr1 : ChildrenSupportDrive conflict_resolution lcs rest)
    (ihr2 : ChildrenSupportLocal conflict_resolution lcs rest)
    (ihr3 : ChildrenNodupDrive conflict_resolution lcs rest)
    (ihr4 : ChildrenNodupLocal conflict_resolution lcs rest)
    (ihc : ∀ lc, folder_lookup lcs c.name = some lc →
      FoldersSupportDrive conflict_resolution c lc ∧
        FoldersSupportLocal conflict_resolution c lc ∧
          FoldersNodupDrive conflict_resolution c lc ∧
            FoldersNodupLocal conflict_resolution c lc) :
    ChildrenSupportDrive conflict_resolution lcs (c :: rest) ∧
      ChildrenSupportLocal conflict_resolution lcs (c :: rest) ∧
        ChildrenNodupDrive conflict_resolution lcs (c :: rest) ∧
          ChildrenNodupLocal conflict_resolution lcs (c :: rest) := by
  have hcons := compare_children_delta_cons conflict_resolution lcs c rest
  by_cases hsh : ((rest.map FolderRec.name).contains c.name) = true
  · simp only [hsh, if_true] at hcons
    rw [planAppend_empty_left] at hcons
    refine ⟨?_, ?_, ?_, ?_⟩
    · intro x hx
      rw [hcons] at hx
      obtain ⟨c', hc', hs, hxc⟩ := ihr1 x hx
      exact ⟨c', List.mem_cons_of_mem _ hc', hs, hxc⟩
    · intro x hx
      rw [hcons] at hx
      obtain ⟨c', hc', lc, hlk, hxc⟩ := ihr2 x hx
      exact ⟨c', List.mem_cons_of_mem _ hc', lc, hlk, hxc⟩
    · intro hN
      rw [hcons]
      rw [subtreePathsList_cons] at hN
      exact ihr3 (List.nodup_append.mp hN).2.1
    · intro hN
      rw [hcons]
      exact ihr4 hN
  · simp only [hsh, Bool.false_eq_true, if_false] at hcons
    cases hlk : folder_lookup lcs c.name with
    | none =>
      rw [hlk] at hcons
      dsimp only [] at hcons
      rw [planAppend_empty_left] at hcons
      refine ⟨?_, ?_, ?_, ?_⟩
      · intro x hx
        rw [hcons] at hx
        obtain ⟨c', hc', hs, hxc⟩ := ihr1 x hx
        exact ⟨c', List.mem_cons_of_mem _ hc', hs, hxc⟩
      · intro x hx
        rw [hcons] at hx
        obtain ⟨c', hc', lc, hlk', hxc⟩ := ihr2 x hx
        exact ⟨c', List.mem_cons_of_mem _ hc', lc, hlk', hxc⟩
      · intro hN
        rw [hcons]
        rw [subtreePathsList_cons] at hN
        exact ihr3 (List.nodup_append.mp hN).2.1
      · intro hN
        rw [hcons]
        exact ihr4 hN
    | some lc =>
      rw [hlk] at hcons
      dsimp only [] at hcons
      obtain ⟨ihc1, ihc2, ihc3, ihc4⟩ := ihc lc hlk
      refine ⟨?_, ?_, ?_, ?_⟩
      · intro x hx
        rw [hcons] at hx
        rw [(driveFootprint_planAppend _ _).mem_iff] at hx
        rcases List.mem_append.mp hx with h | h
        · refine ⟨c, List.mem_cons_self c rest, ?_, ihc1 x h⟩
          rw [hlk]
          rfl
        · obtain ⟨c', hc', hs, hxc⟩ := ihr1 x h
          exact ⟨c', List.mem_cons_of_mem _ hc', hs, hxc⟩
      · intro x hx
        rw [hcons] at hx
        rw [(localFootprint_planAppend _ _).mem_iff] at hx
        rcases List.mem_append.mp hx with h | h
        · exact ⟨c, List.mem_cons_self c rest, lc, hlk, ihc2 x h⟩
        · obtain ⟨c', hc', lc', hlk', hxc⟩ := ihr2 x h
          exact ⟨c', List.mem_cons_of_mem _ hc', lc', hlk', hxc⟩
      · intro hN
        rw [hcons]
        rw [subtreePathsList_cons] at hN
        obtain ⟨hFc, hRest, hDisj⟩ := List.nodup_append.mp hN
        have hFc' : (c.path :: subtreePaths c).Nodup := hFc
        refine (driveFootprint_planAppend _ _).nodup_iff.mpr ?_
        refine List.Nodup.append ?_ ?_ ?_
        · exact ihc3 (List.nodup_cons.mp hFc').2
        · exact ihr3 hRest
        · intro x hx hx2
          have hxc : x ∈ folderFootprint c := List.mem_cons_of_mem _ (ihc1 x hx)
          obtain ⟨c', hc', _, hxc'⟩ := ihr1 x hx2
          have hxr : x ∈ subtreePathsList rest :=
            (mem_subtreePathsList _ x).mpr ⟨c', hc', List.mem_cons_of_mem _ hxc'⟩
          exact hDisj hxc hxr
      · intro hN
        rw [hcons]
        refine (localFootprint_planAppend _ _).nodup_iff.mpr ?_
        obtain ⟨hlcmem, hlcname⟩ := dict_lookup_some FolderRec.name c.name lcs lc hlk
        have hFlc : (folderFootprint lc).Nodup :=
          nodup_folderFootprint_of_mem lcs hN lc hlcmem
        have hFlc' : (lc.path :: subtreePaths lc).Nodup := hFlc
        refine List.Nodup.append ?_ ?_ ?_
        · exact ihc4 (List.nodup_cons.mp hFlc').2
        · exact ihr4 hN
        · intro x hx hx2
          obtain ⟨c', hc', lc', hlk', hxc'⟩ := ihr2 x hx2
          obtain ⟨hlcmem', hlcname'⟩ :=
            dict_lookup_some FolderRec.name c'.name lcs lc' hlk'
          have hne : lc ≠ lc' := by
            intro he
            apply hsh
            have hcc : c.name = c'.name := by
              rw [← hlcname, he, hlcname']
            rw [hcc]
            exact List.elem_eq_true_of_mem (List.mem_map_of_mem FolderRec.name hc')
          exact disjoint_folderFootprint_of_ne lcs hN lc hlcmem lc' hlcmem' hne x
            (List.mem_cons_of_mem _ (ihc2 x hx)) (List.mem_cons_of_mem _ hxc')

theorem compare_footprints (conflict_resolution : String) : ∀ n : Nat,
    (∀ df lf : FolderRec, sizeOf df ≤ n →
      FoldersSupportDrive conflict_resolution df lf ∧
        FoldersSupportLocal conflict_resolution df lf ∧
          FoldersNodupDrive conflict_resolution df lf ∧
            FoldersNodupLocal conflict_resolution df lf) ∧
    (∀ lcs rem : List FolderRec, sizeOf rem ≤ n →
      ChildrenSupportDrive conflict_resolution lcs rem ∧
        ChildrenSupportLocal conflict_resolution lcs rem ∧
          ChildrenNodupDrive conflict_resolution lcs rem ∧
            ChildrenNodupLocal conflict_resolution lcs rem) := by
  intro n
  induction n using Nat.strong_induction_on with
  | _ n ih =>
    constructor
    · intro df lf hsz
      match df with
      | .mk di dn dp dfs dcs =>
        have hdcs : sizeOf dcs < n := by
          have := FolderRec.sizeOf_children_lt (FolderRec.mk di dn dp dfs dcs)
          simp only [FolderRec.children] at this
          omega
        obtain ⟨ih1, ih2, ih3, ih4⟩ := (ih (sizeOf dcs) hdcs).2 lf.children dcs le_rfl
        exact folders_step conflict_resolution di dn dp dfs dcs lf ih1 ih2 ih3 ih4
    · intro lcs rem hsz
      match rem with
      | [] => exact children_nil conflict_resolution lcs
      | c :: rest =>
        have hc : sizeOf c < n := by
          simp only [List.cons.sizeOf_spec] at hsz
          omega
        have hrest : sizeOf rest < n := by
          simp only [List.cons.sizeOf_spec] at hsz
          omega
        obtain ⟨ihr1, ihr2, ihr3, ihr4⟩ := (ih (sizeOf rest) hrest).2 lcs rest le_rfl
        refine children_step conflict_resolution lcs c rest ihr1 ihr2 ihr3 ihr4 ?_
        intro lc _
        exact (ih (sizeOf c) hc).1 c lc le_rfl

/-- Drive tree used to instantiate the C4 invariant. -/
def wDrive4 : FolderRec :=
  .mk "d0" "root" "/S"
    [{ name := "a.txt", full_path := "/S/a.txt", md5 := some "h1", modifiedTime := 100 }]
    [.mk "d1" "common" "/S/common" [] [], .mk "d2" "donly" "/S/donly" [] []]

/-- Local tree used to instantiate the C4 invariant. -/
def wLocal4 : FolderRec :=
  .mk "" "root" "/L"
    [{ name := "a.txt", full_path := "/L/a.txt", md5 := some "h2", modifiedTime := 0 }]
    [.mk "" "common" "/L/common" [] [], .mk "" "lonly" "/L/lonly" [] []]

/-- C4: identifying nodes by their canonical path, in every plan the diff
engine produces from trees whose subtrees carry no duplicate paths, each
drive-side node is referenced at most once across `to_download`, the drive
elements of `conflicts`, and the captured `drive_only_folders` together with
all their descendants; and each local-side node at most once across
`to_upload`, the local elements of `conflicts`, and the captured
`local_only_folders` with all their descendants.  In particular a file lands
in at most one of the transfer lists or one conflict-pair element, a folder
in at most one only-folder list, and no descendant of a captured only-folder
appears individually anywhere else in the plan. -/
theorem plan_references_each_node_once (conflict_resolution : String)
    (drive_structure local_structure : FolderRec)
    (hd : (subtreePaths drive_structure).Nodup)
    (hl : (subtreePaths local_structure).Nodup) :
    (driveFootprint
        (compare_structures conflict_resolution drive_structure local_structure)).Nodup ∧
      (localFootprint
        (compare_structures conflict_resolution drive_structure local_structure)).Nodup := by
  have h := (compare_footprints conflict_resolution (sizeOf drive_structure)).1
    drive_structure local_structure le_rfl
  have he : compare_structures conflict_resolution drive_structure local_structure =
      compare_folders_delta conflict_resolution drive_structure local_structure := rfl
  rw [he]
  exact ⟨h.2.2.1 hd, h.2.2.2 hl⟩

/-- Closed instantiation of the C4 invariant on a concrete pair of trees. -/
theorem plan_references_each_node_once_witness :
    ((subtreePaths wDrive4).Nodup ∧ (subtreePaths wLocal4).Nodup) ∧
      ((driveFootprint (compare_structures "drive" wDrive4 wLocal4)).Nodup ∧
        (localFootprint (compare_structures "drive" wDrive4 wLocal4)).Nodup) :=
  ⟨⟨by simp +decide [wDrive4, subtreePaths, subtreePathsList],
     by simp +decide [wLocal4, subtreePaths, subtreePathsList]⟩,
   plan_references_each_node_once "drive" wDrive4 wLocal4
     (by simp +decide [wDrive4, subtreePaths, subtreePathsList])
     (by simp +decide [wLocal4, subtreePaths, subtreePathsList])⟩
